import Mathlib

/-!
# Verification of the todo-app conversation orchestrator, tool registry and intent extractor

This file is a shallow embedding, in Lean 4, of the core subsystems of the
`todo-app-hackathon` repository:

* the MCP tool registry and its five task-mutation tools
  (`backend/app/mcp/tools.py`, `backend/app/mcp/server.py`, `backend/app/mcp/schemas.py`),
* the conversation orchestrator / agent runner (`backend/app/agent/runner.py`),
* the deterministic intent classifier (`backend/app/agent/intent_classifier.py`).

Modelling conventions:

* Python values holding JSON data are modelled by the mutual inductive
  `EVal`/`EFields`/`EList` (null, booleans, integers, strings, objects and
  arrays — everything the tool-call protocol of this code base moves).
  `json.dumps` / `json.loads` are modelled by `dumps` / `loads` below, with
  `json.dumps`'s default separators (`", "` and `": "`) and its escape table;
  non-ASCII characters are kept verbatim rather than `\uXXXX`-escaped, which
  parses back to the same value.
* The database is a pure value `DB` (a list of `Todo` rows plus the next
  autoincrement id); a SQL session is replaced by explicit state passing.
  `datetime.now(timezone.utc)` is an extra `now : Nat` argument (a logical
  clock); timestamps are `Nat`.
* User ids (UUIDs in the source) are their canonical string form.
* The OpenAI completion API is an oracle `Oracle : List RMessage → Except String Completion`;
  a `.error` result models the client raising an exception.
* Python floats (the intent-classifier confidence weights and thresholds) are
  exact two-decimal constants; they are modelled as `Nat` hundredths (`0.9`
  becomes `90`), so nothing is lost and everything kernel-evaluates.
-/

/-! ## JSON values, as moved around by the tool-call protocol -/

mutual

inductive EVal where
  | null
  | b (v : Bool)
  | i (v : Int)
  | s (v : String)
  | obj (fields : EFields)
  | arr (items : EList)
deriving DecidableEq, Repr

inductive EFields where
  | nil
  | cons (k : String) (v : EVal) (rest : EFields)
deriving DecidableEq, Repr

inductive EList where
  | nil
  | cons (v : EVal) (rest : EList)
deriving DecidableEq, Repr

end

/-- Lookup of a key in a JSON object, first occurrence (Python dicts have
unique keys; on duplicate keys `json.loads` keeps the last one, but the code
under verification never builds duplicates). -/
def elookup (k : String) : EFields → Option EVal
  | .nil => none
  | .cons k' v rest => if k' = k then some v else elookup k rest

/-- Python `d[k] = v`: replace in place when the key is present, append
otherwise (insertion order is preserved, as for `dict`). -/
def dictSet (k : String) (v : EVal) : EFields → EFields
  | .nil => .cons k v .nil
  | .cons k' v' rest => if k' = k then .cons k v rest else .cons k' v' (dictSet k v rest)

theorem elookup_dictSet (k k' : String) (v : EVal) :
    (fs : EFields) → elookup k' (dictSet k v fs) = if k' = k then some v else elookup k' fs
  | .nil => by
    rcases eq_or_ne k' k with h | h
    · subst h; simp [dictSet, elookup]
    · simp [dictSet, elookup, h, Ne.symm h]
  | .cons a b rest => by
    have ih := elookup_dictSet k k' v rest
    simp only [dictSet]
    rcases eq_or_ne a k with ha | ha
    · subst ha
      rcases eq_or_ne k' a with h | h
      · subst h; simp [elookup]
      · simp [elookup, h, Ne.symm h]
    · simp only [if_neg ha, elookup, ih]
      rcases eq_or_ne k' k with hk | hk
      · subst hk
        simp [fun hh : a = k' => ha hh]
      · simp [hk]

/-! ## `json.dumps` (default separators) -/

def digitChar (d : Nat) : Char := Char.ofNat (d + '0'.toNat)

def hexDigitChar (d : Nat) : Char :=
  if d ≤ 9 then digitChar d else Char.ofNat ('a'.toNat + d - 10)

/-- Digit-extraction loop; the fuel (any bound on the number, `n + 1` below)
keeps the recursion structural so the kernel can evaluate it. -/
def natCharsCore : Nat → Nat → List Char → List Char
  | 0, _, acc => acc
  | fuel + 1, n, acc =>
    if n < 10 then digitChar n :: acc
    else natCharsCore fuel (n / 10) (digitChar (n % 10) :: acc)

/-- Decimal digits of `n`, most significant first (`str(n)` for a nonnegative int). -/
def natChars (n : Nat) : List Char := natCharsCore (n + 1) n []

/-- `str(i)` for a Python int. -/
def intChars : Int → List Char
  | .ofNat n => natChars n
  | .negSucc n => '-' :: natChars (n + 1)

/-- The escape `json.dumps` applies to one character of a string
(`ESCAPE_DCT` of Python's `json.encoder`, non-ASCII kept verbatim). -/
def escapeChar (c : Char) : List Char :=
  if c = '"' then ['\\', '"']
  else if c = '\\' then ['\\', '\\']
  else if c = '\x08' then ['\\', 'b']
  else if c = '\t' then ['\\', 't']
  else if c = '\n' then ['\\', 'n']
  else if c = '\x0c' then ['\\', 'f']
  else if c = '\r' then ['\\', 'r']
  else if c.toNat < 32 then
    ['\\', 'u', '0', '0', hexDigitChar (c.toNat / 16), hexDigitChar (c.toNat % 16)]
  else [c]

/-- A JSON string literal, quotes included. -/
def stringChars (s : String) : List Char :=
  '"' :: (s.data.flatMap escapeChar ++ ['"'])

mutual

/-- `json.dumps` of a value, as a character list. -/
def dumpsV : EVal → List Char
  | .null => ['n', 'u', 'l', 'l']
  | .b true => ['t', 'r', 'u', 'e']
  | .b false => ['f', 'a', 'l', 's', 'e']
  | .i n => intChars n
  | .s str => stringChars str
  | .obj fs => '{' :: (dumpsF fs ++ ['}'])
  | .arr items => '[' :: (dumpsL items ++ [']'])

/-- The members of an object, `", "`-separated, `": "` after each key. -/
def dumpsF : EFields → List Char
  | .nil => []
  | .cons k v rest => stringChars k ++ ':' :: ' ' :: dumpsV v ++ dumpsRest rest

def dumpsRest : EFields → List Char
  | .nil => []
  | .cons k v rest => ',' :: ' ' :: (stringChars k ++ ':' :: ' ' :: dumpsV v ++ dumpsRest rest)

/-- The items of an array, `", "`-separated. -/
def dumpsL : EList → List Char
  | .nil => []
  | .cons v rest => dumpsV v ++ dumpsLRest rest

def dumpsLRest : EList → List Char
  | .nil => []
  | .cons v rest => ',' :: ' ' :: (dumpsV v ++ dumpsLRest rest)

end

def dumps (v : EVal) : String := ⟨dumpsV v⟩

/-! ## `json.loads`, on the canonical text `dumps` emits -/

def digitVal (c : Char) : Nat := c.toNat - '0'.toNat

def hexVal (c : Char) : Option Nat :=
  if '0' ≤ c ∧ c ≤ '9' then some (c.toNat - '0'.toNat)
  else if 'a' ≤ c ∧ c ≤ 'f' then some (c.toNat - 'a'.toNat + 10)
  else none

/-- Body of a string literal: consumes up to and including the closing quote.
The fuel (any bound on the number of decoded characters, `length + 1` at the
call sites) keeps the recursion structural so the kernel can evaluate it. -/
def parseStrChars : Nat → List Char → Option (List Char × List Char)
  | 0, _ => none
  | _ + 1, [] => none
  | fuel + 1, c :: r =>
    if c = '"' then some ([], r)
    else if c = '\\' then
      match r with
      | [] => none
      | e :: r' =>
        if e = '"' then (parseStrChars fuel r').map (fun p => ('"' :: p.1, p.2))
        else if e = '\\' then (parseStrChars fuel r').map (fun p => ('\\' :: p.1, p.2))
        else if e = 'b' then (parseStrChars fuel r').map (fun p => ('\x08' :: p.1, p.2))
        else if e = 't' then (parseStrChars fuel r').map (fun p => ('\t' :: p.1, p.2))
        else if e = 'n' then (parseStrChars fuel r').map (fun p => ('\n' :: p.1, p.2))
        else if e = 'f' then (parseStrChars fuel r').map (fun p => ('\x0c' :: p.1, p.2))
        else if e = 'r' then (parseStrChars fuel r').map (fun p => ('\r' :: p.1, p.2))
        else if e = 'u' then
          match r' with
          | h1 :: h2 :: h3 :: h4 :: r'' =>
            match hexVal h1, hexVal h2, hexVal h3, hexVal h4 with
            | some a, some b, some c, some d =>
              (parseStrChars fuel r'').map
                (fun p => (Char.ofNat (((a * 16 + b) * 16 + c) * 16 + d) :: p.1, p.2))
            | _, _, _, _ => none
          | _ => none
        else none
    else (parseStrChars fuel r).map (fun p => (c :: p.1, p.2))

/-- A maximal nonempty digit run. -/
def parseDigits : List Char → Option (List Char × List Char)
  | [] => none
  | c :: r =>
    if c.isDigit then
      match parseDigits r with
      | some (ds, rest) => some (c :: ds, rest)
      | none => some ([c], r)
    else none

def digitsToNat (ds : List Char) : Nat := Nat.ofDigits 10 ((ds.map digitVal).reverse)

mutual

def parseV : Nat → List Char → Option (EVal × List Char)
  | 0, _ => none
  | fuel + 1, s =>
    match s with
    | [] => none
    | c :: r =>
      if c = 'n' then
        match r with
        | 'u' :: 'l' :: 'l' :: r' => some (.null, r')
        | _ => none
      else if c = 't' then
        match r with
        | 'r' :: 'u' :: 'e' :: r' => some (.b true, r')
        | _ => none
      else if c = 'f' then
        match r with
        | 'a' :: 'l' :: 's' :: 'e' :: r' => some (.b false, r')
        | _ => none
      else if c = '"' then
        match parseStrChars (r.length + 1) r with
        | some (cs, rest) => some (.s ⟨cs⟩, rest)
        | none => none
      else if c = '{' then
        match r with
        | '}' :: r' => some (.obj .nil, r')
        | _ =>
          match parseF fuel r with
          | some (fs, rest) => some (.obj fs, rest)
          | none => none
      else if c = '[' then
        match r with
        | ']' :: r' => some (.arr .nil, r')
        | _ =>
          match parseL fuel r with
          | some (items, rest) => some (.arr items, rest)
          | none => none
      else if c = '-' then
        match parseDigits r with
        | some (ds, rest) => some (.i (-(digitsToNat ds : Int)), rest)
        | none => none
      else
        match parseDigits (c :: r) with
        | some (ds, rest) => some (.i (digitsToNat ds), rest)
        | none => none

/-- One or more `"key": value` members followed by the closing brace
(which it consumes). -/
def parseF : Nat → List Char → Option (EFields × List Char)
  | 0, _ => none
  | fuel + 1, '"' :: r =>
    match parseStrChars (r.length + 1) r with
    | some (kcs, r1) =>
      match r1 with
      | ':' :: ' ' :: r2 =>
        match parseV fuel r2 with
        | some (v, r3) =>
          match r3 with
          | '}' :: r4 => some (.cons ⟨kcs⟩ v .nil, r4)
          | ',' :: ' ' :: r4 =>
            match parseF fuel r4 with
            | some (fs, r5) => some (.cons ⟨kcs⟩ v fs, r5)
            | none => none
          | _ => none
        | none => none
      | _ => none
    | none => none
  | _ + 1, _ => none

/-- One or more array items followed by the closing bracket (which it
consumes). -/
def parseL : Nat → List Char → Option (EList × List Char)
  | 0, _ => none
  | fuel + 1, s =>
    match parseV fuel s with
    | some (v, r1) =>
      match r1 with
      | ']' :: r2 => some (.cons v .nil, r2)
      | ',' :: ' ' :: r2 =>
        match parseL fuel r2 with
        | some (items, r3) => some (.cons v items, r3)
        | none => none
      | _ => none
    | none => none

end

/-- `json.loads`: the whole input must be consumed. -/
def loads (s : String) : Option EVal :=
  match parseV (s.data.length + 1) s.data with
  | some (v, []) => some v
  | _ => none

/-! ## The printer/parser round trip: `loads (dumps v) = some v` -/

def startsWithDigit : List Char → Bool
  | [] => false
  | c :: _ => c.isDigit

theorem parseDigits_none (tail : List Char) (h : startsWithDigit tail = false) :
    parseDigits tail = none := by
  cases tail with
  | nil => rfl
  | cons c r => simp only [startsWithDigit] at h; simp [parseDigits, h]

theorem parseDigits_cons_digit (c : Char) (r : List Char) (hc : c.isDigit = true) :
    parseDigits (c :: r) =
      match parseDigits r with
      | some (ds, rest) => some (c :: ds, rest)
      | none => some ([c], r) := by
  rw [parseDigits]
  simp [hc]

theorem parseDigits_append : ∀ (ds tail : List Char), ds ≠ [] →
    (∀ c ∈ ds, c.isDigit = true) → startsWithDigit tail = false →
    parseDigits (ds ++ tail) = some (ds, tail)
  | [], _, hne, _, _ => absurd rfl hne
  | c :: ds, tail, _, hds, htail => by
    have hc : c.isDigit = true := hds c (by simp)
    cases ds with
    | nil =>
      rw [List.singleton_append, parseDigits_cons_digit c tail hc,
        parseDigits_none tail htail]
    | cons d ds' =>
      have ih := parseDigits_append (d :: ds') tail (by simp) (fun x hx => hds x (by simp [hx]))
        htail
      rw [List.cons_append, parseDigits_cons_digit c _ hc, ih]

theorem hexVal_hexDigitChar (d : Nat) (h : d < 16) : hexVal (hexDigitChar d) = some d := by
  interval_cases d <;> decide

theorem digitChar_isDigit (d : Nat) (h : d < 10) : (digitChar d).isDigit = true := by
  interval_cases d <;> decide

theorem digitVal_digitChar (d : Nat) (h : d < 10) : digitVal (digitChar d) = d := by
  interval_cases d <;> decide

theorem one_le_length_escapeChar (c : Char) : 1 ≤ (escapeChar c).length := by
  unfold escapeChar
  split_ifs <;> simp

theorem length_le_flatMap_escapeChar : ∀ cs : List Char,
    cs.length ≤ (cs.flatMap escapeChar).length
  | [] => by simp
  | c :: cs => by
    have h1 := one_le_length_escapeChar c
    have h2 := length_le_flatMap_escapeChar cs
    simp only [List.flatMap_cons, List.length_append, List.length_cons]
    omega

theorem parseStrChars_escape : ∀ (fuel : Nat) (cs rest : List Char), cs.length < fuel →
    parseStrChars fuel (cs.flatMap escapeChar ++ '"' :: rest) = some (cs, rest)
  | 0, _, _, h => absurd h (by omega)
  | _ + 1, [], rest, _ => by simp [parseStrChars]
  | fuel + 1, c :: cs, rest, hlen => by
    have ih := parseStrChars_escape fuel cs rest
      (by simp only [List.length_cons] at hlen; omega)
    simp only [List.flatMap_cons, List.append_assoc]
    by_cases h1 : c = '"'
    · subst h1; simp [escapeChar, parseStrChars, ih]
    · by_cases h2 : c = '\\'
      · subst h2; simp [escapeChar, parseStrChars, ih]
      · by_cases h3 : c = '\x08'
        · subst h3; simp [escapeChar, parseStrChars, ih]
        · by_cases h4 : c = '\t'
          · subst h4; simp [escapeChar, parseStrChars, ih]
          · by_cases h5 : c = '\n'
            · subst h5; simp [escapeChar, parseStrChars, ih]
            · by_cases h6 : c = '\x0c'
              · subst h6; simp [escapeChar, parseStrChars, ih]
              · by_cases h7 : c = '\r'
                · subst h7; simp [escapeChar, parseStrChars, ih]
                · by_cases h8 : c.toNat < 32
                  · have hhi : c.toNat / 16 < 16 := by omega
                    have hlo : c.toNat % 16 < 16 := by omega
                    have hdm1 : c.toNat / 16 * 16 + c.toNat % 16 = c.toNat := by omega
                    have hdm2 : 16 * (c.toNat / 16) + c.toNat % 16 = c.toNat := by omega
                    simp only [escapeChar, if_neg h1, if_neg h2, if_neg h3, if_neg h4,
                      if_neg h5, if_neg h6, if_neg h7, if_pos h8]
                    simp [parseStrChars, hexVal_hexDigitChar _ hhi, hexVal_hexDigitChar _ hlo,
                      show hexVal '0' = some 0 from rfl, hdm1, hdm2, Char.ofNat_toNat, ih]
                  · simp only [escapeChar, if_neg h1, if_neg h2, if_neg h3, if_neg h4,
                      if_neg h5, if_neg h6, if_neg h7, if_neg h8]
                    simp [parseStrChars, h1, h2, ih]

/-- The escape round trip at exactly the fuel the parser call sites pass. -/
theorem parseStrChars_escape' (cs rest : List Char) :
    parseStrChars ((cs.flatMap escapeChar ++ '"' :: rest).length + 1)
      (cs.flatMap escapeChar ++ '"' :: rest) = some (cs, rest) := by
  apply parseStrChars_escape
  have := length_le_flatMap_escapeChar cs
  simp only [List.length_append, List.length_cons]
  omega

theorem natCharsCore_eq : ∀ (fuel n : Nat) (acc : List Char), 1 ≤ n → n ≤ fuel →
    natCharsCore fuel n acc = ((Nat.digits 10 n).map digitChar).reverse ++ acc
  | 0, n, _, h1, h2 => by omega
  | fuel + 1, n, acc, h1, h2 => by
    rw [Nat.digits_def' (b := 10) (by norm_num) (by omega)]
    by_cases h : n < 10
    · have : n / 10 = 0 := by omega
      simp [natCharsCore, h, this, Nat.mod_eq_of_lt h]
    · have hd1 : 1 ≤ n / 10 := by omega
      have hd2 : n / 10 ≤ fuel := by omega
      rw [natCharsCore]
      simp only [if_neg h]
      rw [natCharsCore_eq fuel (n / 10) _ hd1 hd2]
      simp

theorem natChars_eq (n : Nat) (h : n ≠ 0) :
    natChars n = ((Nat.digits 10 n).map digitChar).reverse := by
  rw [natChars, natCharsCore_eq (n + 1) n [] (by omega) (by omega), List.append_nil]

theorem natChars_digits (n : Nat) : ∀ c ∈ natChars n, c.isDigit = true := by
  by_cases h : n = 0
  · subst h; intro c hc; simp [natChars, natCharsCore] at hc; subst hc; decide
  · rw [natChars_eq n h]
    intro c hc
    simp only [List.mem_reverse, List.mem_map] at hc
    obtain ⟨d, hd, rfl⟩ := hc
    exact digitChar_isDigit d (Nat.digits_lt_base (by norm_num) hd)

theorem natChars_ne_nil (n : Nat) : natChars n ≠ [] := by
  by_cases h : n = 0
  · subst h; decide
  · rw [natChars_eq n h]
    simp [Nat.digits_ne_nil_iff_ne_zero.mpr h]

theorem digitsToNat_natChars (n : Nat) : digitsToNat (natChars n) = n := by
  by_cases h : n = 0
  · subst h; decide
  · rw [natChars_eq n h, digitsToNat, List.map_reverse, List.reverse_reverse,
      List.map_map]
    have hmap : (Nat.digits 10 n).map (digitVal ∘ digitChar) = Nat.digits 10 n := by
      conv_rhs => rw [← List.map_id (Nat.digits 10 n)]
      exact List.map_congr_left fun d hd =>
        digitVal_digitChar d (Nat.digits_lt_base (by norm_num) hd)
    rw [hmap, Nat.ofDigits_digits]

-- The measure the parser fuel is compared against.
mutual

def sizeV : EVal → Nat
  | .obj fs => sizeF fs + 1
  | .arr items => sizeL items + 1
  | _ => 1

def sizeF : EFields → Nat
  | .nil => 1
  | .cons _ v rest => sizeV v + sizeF rest + 1

def sizeL : EList → Nat
  | .nil => 1
  | .cons v rest => sizeV v + sizeL rest

end

theorem sizeV_pos (v : EVal) : 1 ≤ sizeV v := by
  cases v <;> simp [sizeV]

theorem sizeF_pos (fs : EFields) : 1 ≤ sizeF fs := by
  cases fs <;> simp [sizeF]

theorem sizeL_pos (items : EList) : 1 ≤ sizeL items := by
  cases items with
  | nil => simp [sizeL]
  | cons v rest => have := sizeV_pos v; simp only [sizeL]; omega

theorem startsWithDigit_dumpsRest (fs : EFields) (tail : List Char) :
    startsWithDigit (dumpsRest fs ++ '}' :: tail) = false := by
  cases fs <;> simp [dumpsRest, startsWithDigit]

theorem startsWithDigit_dumpsLRest (items : EList) (tail : List Char) :
    startsWithDigit (dumpsLRest items ++ ']' :: tail) = false := by
  cases items <;> simp [dumpsLRest, startsWithDigit]

/-- `parseV` reads back any nonempty digit run as the integer it denotes. -/
theorem parseV_digits (fuel : Nat) : ∀ (ds tail : List Char), ds ≠ [] →
    (∀ c ∈ ds, c.isDigit = true) → startsWithDigit tail = false →
    parseV (fuel + 1) (ds ++ tail) = some (.i (digitsToNat ds), tail)
  | [], _, hne, _, _ => absurd rfl hne
  | c :: ds, tail, _, hds, htail => by
    have hc : c.isDigit = true := hds c (by simp)
    have hps := parseDigits_append (c :: ds) tail (by simp) hds htail
    have h1 : c ≠ 'n' := fun h => by subst h; exact absurd hc (by decide)
    have h2 : c ≠ 't' := fun h => by subst h; exact absurd hc (by decide)
    have h3 : c ≠ 'f' := fun h => by subst h; exact absurd hc (by decide)
    have h4 : c ≠ '"' := fun h => by subst h; exact absurd hc (by decide)
    have h5 : c ≠ '{' := fun h => by subst h; exact absurd hc (by decide)
    have h6 : c ≠ '-' := fun h => by subst h; exact absurd hc (by decide)
    have h7 : c ≠ '[' := fun h => by subst h; exact absurd hc (by decide)
    simp only [List.cons_append, parseV, if_neg h1, if_neg h2, if_neg h3, if_neg h4,
      if_neg h5, if_neg h6, if_neg h7]
    rw [show c :: (ds ++ tail) = (c :: ds) ++ tail from rfl, hps]

theorem one_le_length_intChars (m : Int) : 1 ≤ (intChars m).length := by
  cases m with
  | ofNat n => simpa [intChars] using List.length_pos.mpr (natChars_ne_nil n)
  | negSucc n => simp [intChars]

set_option maxHeartbeats 1000000 in
/-- Completeness of the canonical parser on the canonical printer, by induction
on the parser fuel. -/
theorem parse_dumps_rec : ∀ fuel : Nat,
    (∀ (v : EVal) (tail : List Char), sizeV v ≤ fuel → startsWithDigit tail = false →
      parseV fuel (dumpsV v ++ tail) = some (v, tail)) ∧
    (∀ (k : String) (v : EVal) (fs : EFields) (tail : List Char),
      sizeF (.cons k v fs) ≤ fuel →
      parseF fuel (dumpsF (.cons k v fs) ++ '}' :: tail) = some (.cons k v fs, tail)) ∧
    (∀ (v : EVal) (items : EList) (tail : List Char),
      sizeL (.cons v items) ≤ fuel →
      parseL fuel (dumpsL (.cons v items) ++ ']' :: tail) = some (.cons v items, tail)) := by
  intro fuel
  induction fuel with
  | zero =>
    refine ⟨?_, ?_, ?_⟩
    · intro v _ hv _; exact absurd hv (by have := sizeV_pos v; omega)
    · intro k v fs _ hf
      exact absurd hf (by simp only [sizeF]; have := sizeV_pos v; omega)
    · intro v items _ hl
      exact absurd hl (by simp only [sizeL]; have := sizeV_pos v; omega)
  | succ fuel ih =>
    obtain ⟨ihV, ihF, ihL⟩ := ih
    refine ⟨?_, ?_, ?_⟩
    · intro v tail hv htail
      match v with
      | .null => simp [dumpsV, parseV]
      | .b true => simp [dumpsV, parseV]
      | .b false => simp [dumpsV, parseV]
      | .s str =>
        simp only [dumpsV, stringChars, List.cons_append, List.append_assoc,
          List.singleton_append, parseV]
        rw [parseStrChars_escape']
        simp
      | .i (.ofNat m) =>
        rw [show dumpsV (.i (.ofNat m)) = natChars m from rfl,
          parseV_digits fuel (natChars m) tail (natChars_ne_nil m) (natChars_digits m) htail,
          digitsToNat_natChars]
        rfl
      | .i (.negSucc m) =>
        simp only [dumpsV, intChars, List.cons_append, parseV]
        simp [parseDigits_append (natChars (m + 1)) tail (natChars_ne_nil (m + 1))
            (natChars_digits (m + 1)) htail,
          digitsToNat_natChars]
        rw [Int.negSucc_eq]
        ring
      | .obj .nil => simp [dumpsV, dumpsF, parseV]
      | .obj (.cons k v' fs) =>
        have hsz : sizeF (.cons k v' fs) ≤ fuel := by
          simp only [sizeV] at hv; omega
        have ihF' := ihF k v' fs tail hsz
        simp only [dumpsV, dumpsF, stringChars, List.cons_append, List.append_assoc,
          List.nil_append, List.singleton_append] at ihF' ⊢
        simp only [parseV]
        simp [ihF']
      | .arr .nil => simp [dumpsV, dumpsL, parseV]
      | .arr (.cons v' items) =>
        have hsz : sizeL (.cons v' items) ≤ fuel := by
          simp only [sizeV] at hv; omega
        have ihL' := ihL v' items tail hsz
        simp only [dumpsV, dumpsL, List.cons_append, List.append_assoc,
          List.nil_append] at ihL' ⊢
        simp only [parseV]
        -- the head of the first item decides which branch of the `match` on the
        -- character list fires; every dumped value starts with a non-']' character
        match v' with
        | .null | .b true | .b false =>
          simp only [dumpsV, List.cons_append, List.nil_append] at ihL' ⊢
          simp [ihL']
        | .s str =>
          simp only [dumpsV, stringChars, List.cons_append, List.append_assoc,
            List.nil_append, List.singleton_append] at ihL' ⊢
          simp [ihL']
        | .i m =>
          match hm : intChars m with
          | [] => exact absurd hm (by cases m <;> simp [intChars, natChars_ne_nil])
          | c :: cs =>
            have hcne : c ≠ ']' := by
              have : c.isDigit = true ∨ c = '-' := by
                cases m with
                | ofNat n =>
                  simp only [intChars] at hm
                  exact Or.inl (by
                    have := natChars_digits n
                    rw [hm] at this
                    exact this c (by simp))
                | negSucc n => simp only [intChars] at hm; exact Or.inr (by
                    injection hm with h1 _
                    exact h1.symm)
              rcases this with h | h
              · exact fun hh => by subst hh; exact absurd h (by decide)
              · subst h; decide
            simp only [dumpsV, hm, List.cons_append] at ihL' ⊢
            simp [ihL', hcne]
        | .obj fs' =>
          simp only [dumpsV, List.cons_append, List.append_assoc, List.nil_append] at ihL' ⊢
          simp [ihL']
        | .arr items' =>
          simp only [dumpsV, List.cons_append, List.append_assoc, List.nil_append] at ihL' ⊢
          simp [ihL']
    · intro k v fs tail hsz
      have hv : sizeV v ≤ fuel := by
        simp only [sizeF] at hsz; have := sizeF_pos fs; omega
      have ihV' := ihV v (dumpsRest fs ++ '}' :: tail) hv (startsWithDigit_dumpsRest fs tail)
      simp only [dumpsF, stringChars, List.cons_append, List.append_assoc,
        List.nil_append, List.singleton_append, parseF]
      simp only [List.append_eq, List.cons_append, List.append_assoc, List.nil_append,
        List.singleton_append]
      rw [parseStrChars_escape']
      match fs with
      | .nil =>
        simp only [dumpsRest, List.nil_append] at ihV'
        simp [ihV', dumpsRest]
      | .cons k' v' fs' =>
        have hsz' : sizeF (.cons k' v' fs') ≤ fuel := by
          simp only [sizeF] at hsz ⊢; have := sizeV_pos v; omega
        have ihF' := ihF k' v' fs' tail hsz'
        simp only [dumpsF, List.cons_append, List.append_assoc, List.nil_append] at ihF'
        simp only [dumpsRest, List.cons_append, List.append_assoc, List.nil_append,
          List.singleton_append] at ihV' ⊢
        simp [ihV', ihF']
    · intro v items tail hsz
      have hv : sizeV v ≤ fuel := by
        simp only [sizeL] at hsz; have := sizeL_pos items; omega
      have ihV' := ihV v (dumpsLRest items ++ ']' :: tail) hv
        (startsWithDigit_dumpsLRest items tail)
      simp only [dumpsL, List.cons_append, List.append_assoc, List.nil_append, parseL]
      rw [ihV']
      match items with
      | .nil =>
        simp only [dumpsLRest, List.nil_append] at ihV' ⊢
      | .cons v' items' =>
        have hsz' : sizeL (.cons v' items') ≤ fuel := by
          simp only [sizeL] at hsz ⊢; have := sizeV_pos v; omega
        have ihL' := ihL v' items' tail hsz'
        simp only [dumpsL, List.cons_append, List.append_assoc, List.nil_append] at ihL'
        simp only [dumpsLRest, List.cons_append, List.append_assoc, List.nil_append] at ihV' ⊢
        simp [ihV', ihL']

mutual

theorem sizeV_le_length : ∀ v : EVal, sizeV v ≤ (dumpsV v).length
  | .null => by simp [sizeV, dumpsV]
  | .b true => by simp [sizeV, dumpsV]
  | .b false => by simp [sizeV, dumpsV]
  | .i m => by simpa [sizeV, dumpsV] using one_le_length_intChars m
  | .s str => by simp [sizeV, dumpsV, stringChars]
  | .obj fs => by
    have h := sizeF_le_length fs
    simp only [sizeV, dumpsV, List.length_cons, List.length_append, List.length_cons,
      List.length_nil] at h ⊢
    omega
  | .arr items => by
    have h := sizeL_le_length items
    simp only [sizeV, dumpsV, List.length_cons, List.length_append, List.length_cons,
      List.length_nil] at h ⊢
    omega

theorem sizeF_le_length : ∀ fs : EFields, sizeF fs ≤ (dumpsF fs).length + 1
  | .nil => by simp [sizeF, dumpsF]
  | .cons k v rest => by
    have h1 := sizeV_le_length v
    have h2 := sizeF_le_rest rest
    simp only [sizeF, dumpsF, stringChars, List.length_append, List.length_cons] at h1 h2 ⊢
    omega

theorem sizeF_le_rest : ∀ fs : EFields, sizeF fs ≤ (dumpsRest fs).length + 1
  | .nil => by simp [sizeF, dumpsRest]
  | .cons k v rest => by
    have h1 := sizeV_le_length v
    have h2 := sizeF_le_rest rest
    simp only [sizeF, dumpsRest, stringChars, List.length_append, List.length_cons] at h1 h2 ⊢
    omega

theorem sizeL_le_length : ∀ items : EList, sizeL items ≤ (dumpsL items).length + 1
  | .nil => by simp [sizeL, dumpsL]
  | .cons v rest => by
    have h1 := sizeV_le_length v
    have h2 := sizeL_le_rest rest
    simp only [sizeL, dumpsL, List.length_append, List.length_cons] at h1 h2 ⊢
    omega

theorem sizeL_le_rest : ∀ items : EList, sizeL items ≤ (dumpsLRest items).length + 1
  | .nil => by simp [sizeL, dumpsLRest]
  | .cons v rest => by
    have h1 := sizeV_le_length v
    have h2 := sizeL_le_rest rest
    simp only [sizeL, dumpsLRest, List.length_append, List.length_cons] at h1 h2 ⊢
    omega

end

/-- The round trip: `json.loads` applied to `json.dumps` output returns the
original value (and in particular preserves object key order, so the text is
reproduced byte for byte on a second dump). -/
theorem loads_dumps (v : EVal) : loads (dumps v) = some v := by
  have h := (parse_dumps_rec ((dumpsV v).length + 1)).1 v []
    (by have := sizeV_le_length v; omega) rfl
  simp only [List.append_nil] at h
  simp [loads, dumps, h]


/-! ## Task storage (`app/models/todo.py`; a SQL session becomes explicit state) -/

def natStr (n : Nat) : String := ⟨natChars n⟩

def intStr (i : Int) : String := ⟨intChars i⟩

/-- The whitespace set of Python's `str.strip()` (ASCII part). -/
def isPySpace (c : Char) : Bool :=
  c = ' ' || c = '\t' || c = '\n' || c = '\r' || c = '\x0b' || c = '\x0c'

/-- `str.lower()` (ASCII case folding, kernel-evaluable unlike
`String.toLower`). -/
def strLower (s : String) : String := ⟨s.data.map Char.toLower⟩

/-- `str.strip()`. -/
def strStrip (s : String) : String :=
  ⟨((s.data.dropWhile isPySpace).reverse.dropWhile isPySpace).reverse⟩

structure Todo where
  id : Int
  user_id : String
  title : String
  description : Option String
  completed : Bool
  created_at : Nat
  updated_at : Nat
deriving DecidableEq, Repr

/-- The rows of the `todos` table plus the autoincrement counter. -/
structure DB where
  todos : List Todo
  nextId : Int
deriving DecidableEq, Repr

/-! ## Validated tool inputs (`app/mcp/schemas.py`)

Each `parse...` function models the pydantic field validation of the
corresponding `Field`/`field_validator` pair.  `str.strip()` is `strStrip`;
a canonical 8-4-4-4-12 UUID string models pydantic's `UUID` field (the
orchestrator always injects `str(user_id)`, which has that form). -/

def isHexDigit (c : Char) : Bool :=
  ('0' ≤ c && c ≤ '9') || ('a' ≤ c && c ≤ 'f') || ('A' ≤ c && c ≤ 'F')

def isUuid (s : String) : Bool :=
  s.data.length = 36 &&
    (List.range 36).all (fun i =>
      let c := s.data.getD i ' '
      if i = 8 || i = 13 || i = 18 || i = 23 then c = '-' else isHexDigit c)

structure AddTaskInput where
  user_id : String
  title : String
  description : Option String
deriving DecidableEq, Repr

structure ListTasksInput where
  user_id : String
  completed : Option Bool
  search : Option String
  limit : Int
  offset : Int
deriving DecidableEq, Repr

structure UpdateTaskInput where
  user_id : String
  task_id : Int
  title : Option String
  description : Option String
deriving DecidableEq, Repr

structure CompleteTaskInput where
  user_id : String
  task_id : Int
  completed : Bool
deriving DecidableEq, Repr

structure DeleteTaskInput where
  user_id : String
  task_id : Int
deriving DecidableEq, Repr

def parseUserId : Option EVal → Except String String
  | some (.s u) => if isUuid u then .ok u else .error "user_id: Input should be a valid UUID"
  | some _ => .error "user_id: Input should be a valid UUID"
  | none => .error "user_id: Field required"

/-- `title: str = Field(..., min_length=1, max_length=255)` plus the
strip-and-reject-blank validator of `AddTaskInput`. -/
def parseTitleRequired : Option EVal → Except String String
  | some (.s t) =>
    if t.length < 1 then .error "title: String should have at least 1 character"
    else if 255 < t.length then .error "title: String should have at most 255 characters"
    else
      let t' := strStrip t
      if t' = "" then .error "title: Title cannot be empty or whitespace only"
      else .ok t'
  | some _ => .error "title: Input should be a valid string"
  | none => .error "title: Field required"

/-- `UpdateTaskInput.title`: optional, same constraints and validator. -/
def parseTitleOptional : Option EVal → Except String (Option String)
  | none => .ok none
  | some .null => .ok none
  | some (.s t) =>
    if t.length < 1 then .error "title: String should have at least 1 character"
    else if 255 < t.length then .error "title: String should have at most 255 characters"
    else
      let t' := strStrip t
      if t' = "" then .error "title: Title cannot be empty or whitespace only"
      else .ok (some t')
  | some _ => .error "title: Input should be a valid string"

/-- `AddTaskInput.description`: optional, `max_length=2000`, stripped, empty
string normalised to `None`. -/
def parseDescription : Option EVal → Except String (Option String)
  | none => .ok none
  | some .null => .ok none
  | some (.s d) =>
    if 2000 < d.length then .error "description: String should have at most 2000 characters"
    else
      let d' := strStrip d
      .ok (if d' = "" then none else some d')
  | some _ => .error "description: Input should be a valid string"

/-- `UpdateTaskInput.description`: optional, `max_length=2000`, no validator —
the empty string is kept (it is the clear-description request). -/
def parseDescriptionRaw : Option EVal → Except String (Option String)
  | none => .ok none
  | some .null => .ok none
  | some (.s d) =>
    if 2000 < d.length then .error "description: String should have at most 2000 characters"
    else .ok (some d)
  | some _ => .error "description: Input should be a valid string"

def parseTaskId : Option EVal → Except String Int
  | some (.i n) => .ok n
  | some _ => .error "task_id: Input should be a valid integer"
  | none => .error "task_id: Field required"

/-- `CompleteTaskInput.completed`: `bool = True`. -/
def parseCompletedDefaultTrue : Option EVal → Except String Bool
  | none => .ok true
  | some (.b b) => .ok b
  | some _ => .error "completed: Input should be a valid boolean"

/-- `ListTasksInput.completed`: `Optional[bool] = None`. -/
def parseCompletedOpt : Option EVal → Except String (Option Bool)
  | none => .ok none
  | some .null => .ok none
  | some (.b b) => .ok (some b)
  | some _ => .error "completed: Input should be a valid boolean"

/-- `ListTasksInput.search`: optional, `max_length=255`, stripped, empty
string normalised to `None`. -/
def parseSearch : Option EVal → Except String (Option String)
  | none => .ok none
  | some .null => .ok none
  | some (.s q) =>
    if 255 < q.length then .error "search: String should have at most 255 characters"
    else
      let q' := strStrip q
      .ok (if q' = "" then none else some q')
  | some _ => .error "search: Input should be a valid string"

/-- `ListTasksInput.limit`: `int = 50`, `ge=1`, `le=100`. -/
def parseLimit : Option EVal → Except String Int
  | none => .ok 50
  | some (.i n) =>
    if n < 1 then .error "limit: Input should be greater than or equal to 1"
    else if 100 < n then .error "limit: Input should be less than or equal to 100"
    else .ok n
  | some _ => .error "limit: Input should be a valid integer"

/-- `ListTasksInput.offset`: `int = 0`, `ge=0`. -/
def parseOffset : Option EVal → Except String Int
  | none => .ok 0
  | some (.i n) =>
    if n < 0 then .error "offset: Input should be greater than or equal to 0"
    else .ok n
  | some _ => .error "offset: Input should be a valid integer"

def AddTaskInput.parse (args : EFields) : Except String AddTaskInput := do
  let u ← parseUserId (elookup "user_id" args)
  let t ← parseTitleRequired (elookup "title" args)
  let d ← parseDescription (elookup "description" args)
  .ok ⟨u, t, d⟩

def ListTasksInput.parse (args : EFields) : Except String ListTasksInput := do
  let u ← parseUserId (elookup "user_id" args)
  let c ← parseCompletedOpt (elookup "completed" args)
  let s ← parseSearch (elookup "search" args)
  let l ← parseLimit (elookup "limit" args)
  let o ← parseOffset (elookup "offset" args)
  .ok ⟨u, c, s, l, o⟩

def UpdateTaskInput.parse (args : EFields) : Except String UpdateTaskInput := do
  let u ← parseUserId (elookup "user_id" args)
  let i ← parseTaskId (elookup "task_id" args)
  let t ← parseTitleOptional (elookup "title" args)
  let d ← parseDescriptionRaw (elookup "description" args)
  .ok ⟨u, i, t, d⟩

def CompleteTaskInput.parse (args : EFields) : Except String CompleteTaskInput := do
  let u ← parseUserId (elookup "user_id" args)
  let i ← parseTaskId (elookup "task_id" args)
  let c ← parseCompletedDefaultTrue (elookup "completed" args)
  .ok ⟨u, i, c⟩

def DeleteTaskInput.parse (args : EFields) : Except String DeleteTaskInput := do
  let u ← parseUserId (elookup "user_id" args)
  let i ← parseTaskId (elookup "task_id" args)
  .ok ⟨u, i⟩

/-! ## Tool outputs (`app/mcp/schemas.py`) -/

structure TaskResult where
  id : Int
  title : String
  description : Option String
  completed : Bool
  created_at : Nat
  updated_at : Nat
deriving DecidableEq, Repr

structure TaskSummary where
  id : Int
  title : String
deriving DecidableEq, Repr

structure AddTaskOutput where
  success : Bool
  task : Option TaskResult
  message : String
  error : Option String := none
deriving DecidableEq, Repr

structure ListTasksOutput where
  success : Bool
  tasks : List TaskResult
  total : Nat
  message : String
  error : Option String := none
deriving DecidableEq, Repr

structure UpdateTaskOutput where
  success : Bool
  task : Option TaskResult
  message : String
  error : Option String := none
deriving DecidableEq, Repr

structure CompleteTaskOutput where
  success : Bool
  task : Option TaskResult
  message : String
  error : Option String := none
deriving DecidableEq, Repr

structure DeleteTaskOutput where
  success : Bool
  deleted_task : Option TaskSummary
  message : String
  error : Option String := none
deriving DecidableEq, Repr

/-! ## Tool handlers (`app/mcp/tools.py`) -/

def todo_to_task_result (todo : Todo) : TaskResult :=
  ⟨todo.id, todo.title, todo.description, todo.completed, todo.created_at, todo.updated_at⟩

/-- `_get_user_task`: the task with this id owned by this user, `None`
otherwise (`select(Todo).where(Todo.id == task_id, Todo.user_id == user_id)`,
first row). -/
def get_user_task (db : DB) (user_id : String) (task_id : Int) : Option Todo :=
  (db.todos.filter (fun t => t.id = task_id && t.user_id = user_id)).head?

/-- Commit of a mutated row: the row with this id is replaced. -/
def replaceTodo (db : DB) (todo : Todo) : DB :=
  { db with todos := db.todos.map (fun t => if t.id = todo.id then todo else t) }

def add_task (input_data : AddTaskInput) (db : DB) (now : Nat) : AddTaskOutput × DB :=
  let todo : Todo :=
    { id := db.nextId, user_id := input_data.user_id, title := input_data.title,
      description := input_data.description, completed := false,
      created_at := now, updated_at := now }
  ({ success := true, task := some (todo_to_task_result todo),
     message := "Task '" ++ todo.title ++ "' created successfully" },
   { todos := db.todos ++ [todo], nextId := db.nextId + 1 })

/-- Literal (wildcard-free) case-sensitive substring test on character
lists; `listInfix pat hay` holds when `pat` occurs contiguously in `hay`. -/
def listInfix (pat : List Char) : List Char → Bool
  | [] => pat.isEmpty
  | c :: r => pat.isPrefixOf (c :: r) || listInfix pat r

/-- SQL `LIKE` pattern matching against the whole text, with fuel keeping
the recursion structural: `%` matches any run of characters, `_` any single
character, anything else itself.  Any fuel above
`pattern.length + text.length` gives the final verdict. -/
def likeMatch : Nat → List Char → List Char → Bool
  | 0, _, _ => false
  | _ + 1, [], t => t.isEmpty
  | fuel + 1, a :: p, [] => a == '%' && likeMatch fuel p []
  | fuel + 1, a :: p, c :: t =>
    if a == '%' then likeMatch fuel p (c :: t) || likeMatch fuel (a :: p) t
    else (a == '_' || a == c) && likeMatch fuel p t

/-- `Todo.title.ilike(f"%...%")` with the search term spliced in unescaped
(`tools.py` passes no `escape` argument): case-insensitive SQL `LIKE` of the
pattern `'%' + search + '%'` against the whole title, so `%` and `_` inside
the search term keep their wildcard meaning. -/
def ilikeContains (title search : String) : Bool :=
  let pat := '%' :: ((strLower search).data ++ ['%'])
  let txt := (strLower title).data
  likeMatch (pat.length + txt.length + 1) pat txt

/-- `ORDER BY created_at DESC` as an insertion sort (ties keep earlier rows
later, which the SQL leaves unspecified anyway). -/
def insertByCreatedDesc (todo : Todo) : List Todo → List Todo
  | [] => [todo]
  | h :: r =>
    if h.created_at ≤ todo.created_at then todo :: h :: r
    else h :: insertByCreatedDesc todo r

def sortByCreatedDesc : List Todo → List Todo
  | [] => []
  | t :: r => insertByCreatedDesc t (sortByCreatedDesc r)

/-- The rows surviving `list_tasks`'s filter chain, before ordering and
pagination. -/
def listFiltered (input_data : ListTasksInput) (db : DB) : List Todo :=
  let s1 := db.todos.filter (fun t => t.user_id = input_data.user_id)
  let s2 := match input_data.completed with
    | none => s1
    | some c => s1.filter (fun t => t.completed = c)
  match input_data.search with
  | none => s2
  | some q => s2.filter (fun t => ilikeContains t.title q)

def list_tasks (input_data : ListTasksInput) (db : DB) : ListTasksOutput × DB :=
  let s3 := listFiltered input_data db
  let total := s3.length
  let page := ((sortByCreatedDesc s3).drop input_data.offset.toNat).take input_data.limit.toNat
  let tasks := page.map todo_to_task_result
  let status_desc := match input_data.completed with
    | some true => "completed"
    | some false => "incomplete"
    | none => "total"
  let message := match input_data.search with
    | some q => "Found " ++ natStr total ++ " " ++ status_desc ++ " tasks matching '" ++ q ++ "'"
    | none => "Found " ++ natStr total ++ " " ++ status_desc ++ " tasks"
  ({ success := true, tasks := tasks, total := total, message := message }, db)

def taskNotFoundError (task_id : Int) : String :=
  "TASK_NOT_FOUND: Task " ++ intStr task_id ++ " does not exist or does not belong to this user"

def update_task (input_data : UpdateTaskInput) (db : DB) (now : Nat) : UpdateTaskOutput × DB :=
  match get_user_task db input_data.user_id input_data.task_id with
  | none =>
    ({ success := false, task := none, message := "Task not found",
       error := some (taskNotFoundError input_data.task_id) }, db)
  | some todo =>
    if input_data.title = none ∧ input_data.description = none then
      ({ success := false, task := some (todo_to_task_result todo),
         message := "No updates provided",
         error := some "VALIDATION_ERROR: At least one of 'title' or 'description' must be provided" },
       db)
    else
      let todo1 := match input_data.title with
        | none => todo
        | some t => { todo with title := t }
      let todo2 := match input_data.description with
        | none => todo1
        | some d => { todo1 with description := if d = "" then none else some d }
      let todo3 := { todo2 with updated_at := now }
      ({ success := true, task := some (todo_to_task_result todo3),
         message := "Task " ++ intStr todo3.id ++ " updated successfully" },
       replaceTodo db todo3)

def complete_task (input_data : CompleteTaskInput) (db : DB) (now : Nat) :
    CompleteTaskOutput × DB :=
  match get_user_task db input_data.user_id input_data.task_id with
  | none =>
    ({ success := false, task := none, message := "Task not found",
       error := some (taskNotFoundError input_data.task_id) }, db)
  | some todo =>
    let todo' := { todo with completed := input_data.completed, updated_at := now }
    let status_text := if input_data.completed then "completed" else "marked as incomplete"
    ({ success := true, task := some (todo_to_task_result todo'),
       message := "Task '" ++ todo'.title ++ "' " ++ status_text },
     replaceTodo db todo')

def delete_task (input_data : DeleteTaskInput) (db : DB) : DeleteTaskOutput × DB :=
  match get_user_task db input_data.user_id input_data.task_id with
  | none =>
    ({ success := false, deleted_task := none, message := "Task not found",
       error := some (taskNotFoundError input_data.task_id) }, db)
  | some todo =>
    ({ success := true, deleted_task := some ⟨todo.id, todo.title⟩,
       message := "Task '" ++ todo.title ++ "' has been deleted" },
     { db with todos := db.todos.filter (fun t => !(t.id = todo.id)) })

/-! ## MCP server (`app/mcp/server.py` + the dispatch table of `tools.py`) -/

def knownToolNames : List String :=
  ["add_task", "list_tasks", "update_task", "complete_task", "delete_task"]

inductive ParsedInput where
  | add (i : AddTaskInput)
  | list (i : ListTasksInput)
  | update (i : UpdateTaskInput)
  | complete (i : CompleteTaskInput)
  | delete (i : DeleteTaskInput)
deriving DecidableEq, Repr

/-- `INPUT_SCHEMAS[tool_name](**arguments)`: validate and parse the argument
dictionary against the schema of the named tool. -/
def parseArgs (tool_name : String) (args : EFields) : Except String ParsedInput :=
  if tool_name = "add_task" then (AddTaskInput.parse args).map .add
  else if tool_name = "list_tasks" then (ListTasksInput.parse args).map .list
  else if tool_name = "update_task" then (UpdateTaskInput.parse args).map .update
  else if tool_name = "complete_task" then (CompleteTaskInput.parse args).map .complete
  else if tool_name = "delete_task" then (DeleteTaskInput.parse args).map .delete
  else .error "unknown tool"

/-- The `result` dictionary carried by an `MCPToolResult` (the
`model_dump()` of one of the five outputs, `{}` on transport-level failure,
or the error dictionary `_process_response` synthesizes). -/
inductive ResultVal where
  | empty
  | add (o : AddTaskOutput)
  | list (o : ListTasksOutput)
  | update (o : UpdateTaskOutput)
  | complete (o : CompleteTaskOutput)
  | delete (o : DeleteTaskOutput)
  | execError (message tool : String)
deriving DecidableEq, Repr

/-- `result.get("success", True)`. -/
def ResultVal.successField : ResultVal → Bool
  | .empty => true
  | .add o => o.success
  | .list o => o.success
  | .update o => o.success
  | .complete o => o.success
  | .delete o => o.success
  | .execError _ _ => false

/-- `result.get("error")`. -/
def ResultVal.errorField : ResultVal → Option String
  | .empty => none
  | .add o => o.error
  | .list o => o.error
  | .update o => o.error
  | .complete o => o.error
  | .delete o => o.error
  | .execError _ _ => some "TOOL_EXECUTION_ERROR"

def optStrEVal : Option String → EVal
  | none => .null
  | some s => .s s

def taskResultToEVal (t : TaskResult) : EVal :=
  .obj (.cons "id" (.i t.id) (.cons "title" (.s t.title)
    (.cons "description" (optStrEVal t.description)
    (.cons "completed" (.b t.completed)
    (.cons "created_at" (.i t.created_at)
    (.cons "updated_at" (.i t.updated_at) .nil))))))

def optTaskEVal : Option TaskResult → EVal
  | none => .null
  | some t => taskResultToEVal t

def tasksToEList : List TaskResult → EList
  | [] => .nil
  | t :: r => .cons (taskResultToEVal t) (tasksToEList r)

/-- `model_dump()` of each output, as the JSON value serialized into a
`tool`-role turn (timestamps, a logical clock here, serialize as integers
where the source emits ISO strings). -/
def ResultVal.toEVal : ResultVal → EVal
  | .empty => .obj .nil
  | .add o =>
    .obj (.cons "success" (.b o.success) (.cons "task" (optTaskEVal o.task)
      (.cons "message" (.s o.message) (.cons "error" (optStrEVal o.error) .nil))))
  | .list o =>
    .obj (.cons "success" (.b o.success) (.cons "tasks" (.arr (tasksToEList o.tasks))
      (.cons "total" (.i o.total) (.cons "message" (.s o.message)
      (.cons "error" (optStrEVal o.error) .nil)))))
  | .update o =>
    .obj (.cons "success" (.b o.success) (.cons "task" (optTaskEVal o.task)
      (.cons "message" (.s o.message) (.cons "error" (optStrEVal o.error) .nil))))
  | .complete o =>
    .obj (.cons "success" (.b o.success) (.cons "task" (optTaskEVal o.task)
      (.cons "message" (.s o.message) (.cons "error" (optStrEVal o.error) .nil))))
  | .delete o =>
    .obj (.cons "success" (.b o.success)
      (.cons "deleted_task"
        (match o.deleted_task with
         | none => .null
         | some s => .obj (.cons "id" (.i s.id) (.cons "title" (.s s.title) .nil)))
      (.cons "message" (.s o.message) (.cons "error" (optStrEVal o.error) .nil))))
  | .execError msg tool =>
    .obj (.cons "success" (.b false) (.cons "error" (.s "TOOL_EXECUTION_ERROR")
      (.cons "message" (.s msg) (.cons "tool" (.s tool) .nil))))

structure MCPToolResult where
  tool_name : String
  success : Bool
  result : ResultVal
  error : Option String
deriving DecidableEq, Repr

/-- The two kinds of exception `invoke_tool` can raise: `ValueError` for an
unknown name, pydantic's `ValidationError` for bad arguments. -/
inductive InvokeErr where
  | unknown (msg : String)
  | validation (msg : String)
deriving DecidableEq, Repr

/-- `invoke_tool(tool_name, arguments)`: dispatch through `TOOL_HANDLERS`
after validating against `INPUT_SCHEMAS`. -/
def invoke_tool (tool_name : String) (args : EFields) (db : DB) (now : Nat) :
    Except InvokeErr (ResultVal × DB) :=
  if tool_name ∈ knownToolNames then
    match parseArgs tool_name args with
    | .error m => .error (.validation m)
    | .ok (.add i) => let (o, db') := add_task i db now; .ok (.add o, db')
    | .ok (.list i) => let (o, db') := list_tasks i db; .ok (.list o, db')
    | .ok (.update i) => let (o, db') := update_task i db now; .ok (.update o, db')
    | .ok (.complete i) => let (o, db') := complete_task i db now; .ok (.complete o, db')
    | .ok (.delete i) => let (o, db') := delete_task i db; .ok (.delete o, db')
  else .error (.unknown ("Unknown tool: " ++ tool_name))

def unknownToolError (name : String) : String :=
  "UNKNOWN_TOOL: Tool '" ++ name ++
    "' does not exist. Available tools: ['add_task', 'list_tasks', 'update_task', 'complete_task', 'delete_task']"

/-- `MCPToolServer.call_tool`: never raises; unknown names and validation
failures come back as failed `MCPToolResult`s. -/
def call_tool (name : String) (arguments : EFields) (db : DB) (now : Nat) :
    MCPToolResult × DB :=
  if name ∈ knownToolNames then
    match invoke_tool name arguments db now with
    | .ok (res, db') =>
      ({ tool_name := name, success := res.successField, result := res,
         error := res.errorField }, db')
    | .error (.validation m) =>
      ({ tool_name := name, success := false, result := .empty,
         error := some ("VALIDATION_ERROR: " ++ m) }, db)
    | .error (.unknown m) =>
      ({ tool_name := name, success := false, result := .empty,
         error := some ("INTERNAL_ERROR: " ++ m) }, db)
  else
    ({ tool_name := name, success := false, result := .empty,
       error := some (unknownToolError name) }, db)

/-! ## Agent runner (`app/agent/runner.py`) -/

/-- `str(value)` for the non-dict branch of the arguments normalization
(`str()` of a Python scalar; containers go through the dict branch, and for
the stray container case we keep a JSON rendering, which no claim inspects). -/
def pyStr : EVal → String
  | .null => "None"
  | .b true => "True"
  | .b false => "False"
  | .i n => intStr n
  | .s str => str
  | .obj o => dumps (.obj o)
  | .arr items => dumps (.arr items)

/-- `json.dumps(arguments) if isinstance(arguments, dict) else str(arguments)`. -/
def argumentsStr : EVal → String
  | .obj o => dumps (.obj o)
  | v => pyStr v

/-- `_normalize_tool_calls`, one entry: pass through wire-shaped entries,
convert storage-shaped ones, drop the rest. -/
def normalizeEntry : EVal → Option EVal
  | .obj tc =>
    if (elookup "id" tc).isSome && (elookup "type" tc).isSome
        && (elookup "function" tc).isSome then
      some (.obj tc)
    else
      match elookup "tool_call_id" tc, elookup "tool_name" tc with
      | some cid, some nm =>
        let argv := (elookup "arguments" tc).getD (.obj .nil)
        some (.obj (.cons "id" cid (.cons "type" (.s "function")
          (.cons "function" (.obj (.cons "name" nm
            (.cons "arguments" (.s (argumentsStr argv)) .nil))) .nil))))
      | _, _ => none
  | _ => none

def normalize_tool_calls (tool_calls : List EVal) : List EVal :=
  tool_calls.filterMap normalizeEntry

def elistToList : EList → List EVal
  | .nil => []
  | .cons v rest => v :: elistToList rest

/-- `_normalize_tool_calls` on its raw argument: a single dict is wrapped into
a one-element list, a non-list is dropped with a warning. -/
def normalize_tool_calls_any : EVal → List EVal
  | .obj tc => normalize_tool_calls [.obj tc]
  | .arr items => normalize_tool_calls (elistToList items)
  | _ => []

/-- The `Message` dataclass of `runner.py` (one persisted history turn). -/
structure HMessage where
  role : String
  content : Option String := none
  tool_calls : List EVal := []
  tool_call_id : Option String := none
  name : Option String := none
deriving DecidableEq, Repr

/-- A message dictionary in the OpenAI wire shape, as built by
`_build_messages` and `_process_response`. -/
structure RMessage where
  role : String
  content : String
  tool_calls : List EVal := []
  tool_call_id : Option String := none
  name : Option String := none
deriving DecidableEq, Repr

/-- `x or ""` for an optional string (`None` and `""` both give `""`). -/
def contentOr : Option String → String
  | none => ""
  | some s => s

/-- `prompts.TODO_AGENT_SYSTEM_PROMPT`, abbreviated to its first sentence —
no claim depends on the prompt text, only on the system turn coming first. -/
def TODO_AGENT_SYSTEM_PROMPT : String :=
  "You are a helpful AI assistant for the Todo App. Your role is to help users manage their tasks through natural conversation."

def get_system_prompt (user_name : Option String) : String :=
  match user_name with
  | none => TODO_AGENT_SYSTEM_PROMPT
  | some n =>
    if n = "" then TODO_AGENT_SYSTEM_PROMPT
    else
      -- `prompt.replace(...)` on the fixed phrase, unfolded on the constant
      "You are a helpful AI assistant for the Todo App. Your role is to help " ++ n ++
        " manage their tasks through natural conversation." 

def histToWire (msg : HMessage) : RMessage :=
  { role := msg.role, content := contentOr msg.content,
    tool_calls := normalize_tool_calls msg.tool_calls,
    tool_call_id := msg.tool_call_id, name := msg.name }

/-- `_build_messages`: system prompt first, then the history, then the new
user turn. -/
def build_messages (user_message : String) (conversation_history : List HMessage)
    (user_name : Option String) : List RMessage :=
  { role := "system", content := get_system_prompt user_name } ::
    (conversation_history.map histToWire ++ [{ role := "user", content := user_message }])

structure FnCall where
  name : String
  arguments : String
deriving DecidableEq, Repr

/-- A live tool-invocation request from the completion API
(`ChatCompletionMessageToolCall`). -/
structure ToolCall where
  id : String
  type : String
  function : FnCall
deriving DecidableEq, Repr

structure Usage where
  prompt_tokens : Nat := 0
  completion_tokens : Nat := 0
  total_tokens : Nat := 0
deriving DecidableEq, Repr

structure RespMsg where
  content : Option String := none
  tool_calls : List ToolCall := []
deriving DecidableEq, Repr

/-- One response of the completion capability. -/
structure Completion where
  message : RespMsg
  finish_reason : String := "stop"
  usage : Usage := {}
  model : String := "unknown"
deriving DecidableEq, Repr

/-- The completion capability; `.error` models the OpenAI client raising. -/
def Oracle := List RMessage → Except String Completion

/-- One record of `tool_calls_log`. -/
structure ToolLogEntry where
  tool_call_id : String
  tool_name : String
  arguments : EVal
  result : ResultVal
  success : Bool
deriving DecidableEq, Repr

structure AgentResponse where
  message : String
  tool_calls : List ToolLogEntry := []
  finish_reason : String := "stop"
  usage : Usage := {}
  model : String := "unknown"
  intermediate_messages : List RMessage := []
deriving DecidableEq, Repr

/-- `arguments["user_id"] = str(user_id)`: the orchestrator overwrites
whatever user id the model supplied. -/
def inject_user_id (user_id : String) (args : EFields) : EFields :=
  dictSet "user_id" (.s user_id) args

/-- `_execute_tool_call`: parse the argument JSON, inject the authenticated
user id, dispatch through the MCP server.  `.error` models the exceptions the
body can raise (`json.loads` failure, item assignment on a non-dict). -/
def execute_tool_call (tc : ToolCall) (user_id : String) (db : DB) (now : Nat) :
    Except String (ToolLogEntry × DB) :=
  match loads tc.function.arguments with
  | none => .error ("json.loads failed on tool arguments for " ++ tc.function.name)
  | some (.obj args) =>
    let args' := inject_user_id user_id args
    let (result, db') := call_tool tc.function.name args' db now
    .ok ({ tool_call_id := tc.id, tool_name := tc.function.name,
           arguments := .obj args', result := result.result,
           success := result.success }, db')
  | some _ => .error ("tool arguments are not an object for " ++ tc.function.name)

/-- The assistant-turn record of a live tool-invocation request. -/
def toolCallToEVal (tc : ToolCall) : EVal :=
  .obj (.cons "id" (.s tc.id) (.cons "type" (.s tc.type)
    (.cons "function" (.obj (.cons "name" (.s tc.function.name)
      (.cons "arguments" (.s tc.function.arguments) .nil))) .nil)))

/-- The per-round tool execution loop of `_process_response`: for each
invocation, execute it (synthesizing a `TOOL_EXECUTION_ERROR` result when the
handler raises but the except-handler survives) and append exactly one
`tool`-role message tagged with the invocation id.  The fourth component is
`some e` when the except-handler itself re-raises (malformed, nonempty
argument JSON), which aborts the round mid-way, keeping what was appended. -/
def execRound (user_id : String) (now : Nat) :
    List ToolCall → DB → (List RMessage × List ToolLogEntry × DB × Option String)
  | [], db => ([], [], db, none)
  | tc :: rest, db =>
    match loads tc.function.arguments with
    | some (.obj args) =>
      let args' := inject_user_id user_id args
      let (result, db') := call_tool tc.function.name args' db now
      let entry : ToolLogEntry :=
        { tool_call_id := tc.id, tool_name := tc.function.name,
          arguments := .obj args', result := result.result, success := result.success }
      let tmsg : RMessage :=
        { role := "tool", content := dumps result.result.toEVal,
          tool_call_id := some tc.id, name := some tc.function.name }
      let (msgs, entries, db'', err) := execRound user_id now rest db'
      (tmsg :: msgs, entry :: entries, db'', err)
    | some v =>
      -- item assignment on a non-dict raised `TypeError`; the except-handler's
      -- own `json.loads` succeeds, so the error turn is logged and the loop goes on
      let res : ResultVal :=
        .execError "tool arguments are not an object" tc.function.name
      let entry : ToolLogEntry :=
        { tool_call_id := tc.id, tool_name := tc.function.name,
          arguments := v, result := res, success := false }
      let tmsg : RMessage :=
        { role := "tool", content := dumps res.toEVal,
          tool_call_id := some tc.id, name := some tc.function.name }
      let (msgs, entries, db'', err) := execRound user_id now rest db
      (tmsg :: msgs, entry :: entries, db'', err)
    | none =>
      if tc.function.arguments = "" then
        -- `json.loads("")` raised; the except-handler's conditional falls back to `{}`
        let res : ResultVal :=
          .execError "Expecting value: line 1 column 1 (char 0)" tc.function.name
        let entry : ToolLogEntry :=
          { tool_call_id := tc.id, tool_name := tc.function.name,
            arguments := .obj .nil, result := res, success := false }
        let tmsg : RMessage :=
          { role := "tool", content := dumps res.toEVal,
            tool_call_id := some tc.id, name := some tc.function.name }
        let (msgs, entries, db'', err) := execRound user_id now rest db
        (tmsg :: msgs, entry :: entries, db'', err)
      else
        -- the except-handler calls `json.loads` again on the same bad text and
        -- re-raises, aborting the round
        ([], [], db, some ("json.loads failed on tool arguments for " ++ tc.function.name))

/-- The mutable state of one `_process_response` run, instrumented with the
number of completion calls made (`calls`) and every message list handed to
the completion capability (`submitted`). -/
structure LoopState where
  messages : List RMessage
  log : List ToolLogEntry
  intermediate : List RMessage
  db : DB
  calls : Nat
  submitted : List (List RMessage)
deriving Repr

def mkResponse (msg : RespMsg) (response : Completion) (st : LoopState) : AgentResponse :=
  { message := contentOr msg.content, tool_calls := st.log,
    finish_reason := response.finish_reason, usage := response.usage,
    model := response.model, intermediate_messages := st.intermediate }

/-- The `while iteration < max_iterations` loop of `_process_response`, with
the remaining iteration budget as fuel.  `prevMsg` is the message examined by
the most recent loop body, which is what the source surfaces when the ceiling
is hit.  The `.error` case is an exception escaping `_process_response`
(caught in `run`). -/
def processLoop (oracle : Oracle) (user_id : String) (now : Nat) :
    Nat → Completion → RespMsg → LoopState →
    Except (String × LoopState) (AgentResponse × LoopState)
  | 0, response, prevMsg, st => .ok (mkResponse prevMsg response st, st)
  | n + 1, response, _, st =>
    let message := response.message
    if message.tool_calls.isEmpty then
      .ok (mkResponse message response st, st)
    else
      let amsg : RMessage :=
        { role := "assistant", content := contentOr message.content,
          tool_calls := message.tool_calls.map toolCallToEVal }
      let r := execRound user_id now message.tool_calls st.db
      let msgs' := st.messages ++ amsg :: r.1
      let st' : LoopState :=
        { messages := msgs', log := st.log ++ r.2.1,
          intermediate := st.intermediate ++ amsg :: r.1, db := r.2.2.1,
          calls := st.calls, submitted := st.submitted }
      match r.2.2.2 with
      | some e => .error (e, st')
      | none =>
        let st'' : LoopState :=
          { st' with calls := st'.calls + 1, submitted := st'.submitted ++ [msgs'] }
        match oracle msgs' with
        | .error e =>
          .ok ({ message := "I encountered an error calling the AI service: " ++ e,
                 tool_calls := st''.log, finish_reason := "error",
                 intermediate_messages := st''.intermediate }, st'')
        | .ok resp' => processLoop oracle user_id now n resp' message st''

/-- `AgentRunner.run` (with a configured client): build the message list, make
the first completion call, then drive the tool loop; any exception becomes an
apologetic `AgentResponse` with `finish_reason="error"`. -/
def run (oracle : Oracle) (user_id : String) (user_message : String)
    (conversation_history : List HMessage) (user_name : Option String)
    (db : DB) (now : Nat) : AgentResponse × LoopState :=
  let messages := build_messages user_message conversation_history user_name
  let st0 : LoopState :=
    { messages := messages, log := [], intermediate := [],
      db := db, calls := 1, submitted := [messages] }
  match oracle messages with
  | .error e =>
    ({ message := "I encountered an error: " ++ e, finish_reason := "error" }, st0)
  | .ok response =>
    match processLoop oracle user_id now 10 response response.message st0 with
    | .ok (r, st) => (r, st)
    | .error (e, st) =>
      ({ message := "I encountered an error: " ++ e, finish_reason := "error" }, st)

/-! ## Intent classifier (`app/agent/intent_classifier.py`)

A small backtracking regex engine covering exactly the constructs the
source's patterns use (`\b \d \s \w . literals, sets, [^...], ^ $, |, ?, *,
+, lazy +?, capture groups`), with Python's preference order: leftmost match,
alternation left-first, greedy quantifiers longest-first, lazy shortest-first.
The `ci` flag is `re.IGNORECASE` (ASCII case folding; every input here is
ASCII). -/

inductive CClass where
  | any
  | digit
  | space
  | word
  | ch (c : Char)
  | inSet (cs : List Char)
  | setOrSpace (cs : List Char)
  | notSet (cs : List Char)
deriving DecidableEq, Repr

def isWordChar (c : Char) : Bool := c.isAlphanum || c = '_'

def foldCase (ci : Bool) (c : Char) : Char := if ci then c.toLower else c

def cmatch (ci : Bool) : CClass → Char → Bool
  | .any, c => !(c = '\n')
  | .digit, c => c.isDigit
  | .space, c => isPySpace c
  | .word, c => isWordChar c
  | .ch a, c => foldCase ci c = a
  | .inSet cs, c => cs.contains (foldCase ci c)
  | .setOrSpace cs, c => isPySpace c || cs.contains (foldCase ci c)
  | .notSet cs, c => !(cs.contains (foldCase ci c))

inductive Regex where
  | eps
  | cls (c : CClass)
  | wordB
  | startA
  | endA
  | seq (a b : Regex)
  | alt (a b : Regex)
  | opt (a : Regex)
  | star (c : CClass)
  | starL (c : CClass)
  | grp (n : Nat) (a : Regex)
deriving DecidableEq, Repr

def rplus (c : CClass) : Regex := .seq (.cls c) (.star c)

def rplusL (c : CClass) : Regex := .seq (.cls c) (.starL c)

def Groups := List (Nat × List Char)

/-- Greedy star over a one-character class: longest first, then backtrack. -/
def starMatch (ci : Bool) (c : CClass) :
    Option Char → List Char → Groups →
    (Option Char → List Char → Groups → Option Groups) → Option Groups
  | p, [], g, k => k p [] g
  | p, x :: xs, g, k =>
    if cmatch ci c x then
      match starMatch ci c (some x) xs g k with
      | some res => some res
      | none => k p (x :: xs) g
    else k p (x :: xs) g

/-- Lazy star: shortest first. -/
def starLMatch (ci : Bool) (c : CClass) :
    Option Char → List Char → Groups →
    (Option Char → List Char → Groups → Option Groups) → Option Groups
  | p, s, g, k =>
    match k p s g with
    | some res => some res
    | none =>
      match s with
      | [] => none
      | x :: xs => if cmatch ci c x then starLMatch ci c (some x) xs g k else none

/-- The backtracking matcher in continuation-passing style.  `p` is the
previous character (for `\b` and `^`), the continuation receives the new
previous character, the remaining input and the captures collected so far. -/
def mtch (ci : Bool) : Regex →
    Option Char → List Char → Groups →
    (Option Char → List Char → Groups → Option Groups) → Option Groups
  | .eps, p, s, g, k => k p s g
  | .cls c, _, s, g, k =>
    match s with
    | [] => none
    | x :: xs => if cmatch ci c x then k (some x) xs g else none
  | .wordB, p, s, g, k =>
    let lw := match p with | some c => isWordChar c | none => false
    let rw := match s with | x :: _ => isWordChar x | [] => false
    if lw != rw then k p s g else none
  | .startA, p, s, g, k => if p.isNone then k p s g else none
  | .endA, p, s, g, k => if s.isEmpty then k p s g else none
  | .seq a b, p, s, g, k => mtch ci a p s g (fun p' s' g' => mtch ci b p' s' g' k)
  | .alt a b, p, s, g, k =>
    match mtch ci a p s g k with
    | some res => some res
    | none => mtch ci b p s g k
  | .opt a, p, s, g, k =>
    match mtch ci a p s g k with
    | some res => some res
    | none => k p s g
  | .star c, p, s, g, k => starMatch ci c p s g k
  | .starL c, p, s, g, k => starLMatch ci c p s g k
  | .grp n a, p, s, g, k =>
    mtch ci a p s g (fun p' s' g' =>
      k p' s' ((n, s.take (s.length - s'.length)) :: g'))

/-- `re.search`: try each start position left to right. -/
def searchFrom (ci : Bool) (r : Regex) : Option Char → List Char → Option Groups
  | p, s =>
    match mtch ci r p s [] (fun _ _ g => some g) with
    | some g => some g
    | none =>
      match s with
      | [] => none
      | x :: xs => searchFrom ci r (some x) xs

def reSearch (ci : Bool) (r : Regex) (s : String) : Option Groups :=
  searchFrom ci r none s.data

def reTest (ci : Bool) (r : Regex) (s : String) : Bool := (reSearch ci r s).isSome

/-- `match.group(n)`: `none` when the group did not participate. -/
def groupStr (g : Groups) (n : Nat) : Option String :=
  (List.lookup n g).map (fun cs => (⟨cs⟩ : String))

def litList : List Char → Regex
  | [] => .eps
  | [c] => .cls (.ch c)
  | c :: r => .seq (.cls (.ch c)) (litList r)

def lit (s : String) : Regex := litList s.data

def alts : List Regex → Regex
  | [] => .eps
  | [r] => r
  | r :: rest => .alt r (alts rest)

def seqs : List Regex → Regex
  | [] => .eps
  | [r] => r
  | r :: rest => .seq r (seqs rest)

def wb : Regex := .wordB

def anyStar : Regex := .star .any

inductive Intent where
  | CREATE_TASK
  | VIEW_TASKS
  | EDIT_TASK
  | COMPLETE_TASK
  | DELETE_TASK
  | UNKNOWN
deriving DecidableEq, Repr

inductive ConfidenceLevel where
  | HIGH
  | MEDIUM
  | LOW
  | UNCERTAIN
deriving DecidableEq, Repr

/-- The parameter dictionary `extract_parameters` builds (every key it can
ever set, absent keys as `none`). -/
structure ExtractedParams where
  task_id : Option Int := none
  title : Option String := none
  completed : Option Bool := none
  search : Option String := none
  limit : Option Int := none
deriving DecidableEq, Repr

structure IntentResult where
  intent : Intent
  confidence : Nat
  confidence_level : ConfidenceLevel
  tool_name : Option String
  extracted_params : ExtractedParams
  requires_clarification : Bool
  clarification_question : Option String
deriving DecidableEq, Repr

/-- `INTENT_PATTERNS`, transcribed pattern by pattern in source order. -/
def INTENT_PATTERNS : List (Intent × List (Regex × Nat)) :=
  [ (.CREATE_TASK,
      [ (seqs [wb, .grp 1 (alts [lit "add", lit "create", lit "new", lit "make"]), wb,
          anyStar, wb, .grp 2 (alts [lit "task", lit "todo", lit "item"]), wb], 90),
        (seqs [wb, lit "new task", wb], 95),
        (seqs [wb, lit "add", wb, anyStar, wb, lit "to", wb, anyStar, wb, lit "list", wb], 85),
        (seqs [wb, lit "put", wb, anyStar, wb, lit "on", wb, anyStar, wb, lit "list", wb], 85),
        (seqs [wb, .grp 1 (alts [lit "remind", lit "remember"]), wb, anyStar, wb,
          lit "to", wb], 70),
        (seqs [wb, lit "i ", .grp 1 (alts [lit "need", lit "have", lit "got", lit "gotta"]),
          lit " to", wb], 65),
        (seqs [wb, lit "don", .opt (.cls (.ch '\'')), lit "t ",
          .opt (.grp 1 (lit "let me ")), lit "forget", wb], 70),
        (seqs [wb, lit "i should", wb], 45) ]),
    (.VIEW_TASKS,
      [ (seqs [wb, .grp 1 (alts [lit "show", lit "list", lit "view", lit "display", lit "see"]),
          wb, anyStar, wb, .grp 2 (alts [lit "task", lit "todo", lit "list", lit "all"]), wb],
          90),
        (seqs [wb, lit "what", wb, anyStar, wb,
          .grp 1 (alts [lit "task", lit "todo", lit "do", lit "have"]), wb], 85),
        (seqs [wb, lit "my ", .grp 1 (alts [seqs [lit "task", .opt (.cls (.ch 's'))],
          seqs [lit "todo", .opt (.cls (.ch 's'))], lit "list"]), wb], 80),
        (seqs [wb, .grp 1 (alts [lit "show", lit "list", lit "view"]), wb, anyStar, wb,
          .grp 2 (alts [seqs [lit "complete", .opt (.cls (.ch 'd'))], lit "done",
            lit "finished"]), wb], 90),
        (seqs [wb, .grp 1 (alts [lit "show", lit "list", lit "view"]), wb, anyStar, wb,
          .grp 2 (alts [lit "incomplete", lit "pending", lit "remaining"]), wb], 90),
        (seqs [wb, lit "complete", .opt (.cls (.ch 'd')), rplus .space,
          .grp 1 (alts [seqs [lit "task", .opt (.cls (.ch 's'))],
            seqs [lit "todo", .opt (.cls (.ch 's'))]]), wb], 90),
        (seqs [wb, lit "incomplete", rplus .space,
          .grp 1 (alts [seqs [lit "task", .opt (.cls (.ch 's'))],
            seqs [lit "todo", .opt (.cls (.ch 's'))]]), wb], 90),
        (seqs [wb, .grp 1 (alts [lit "anything", lit "something"]), wb, anyStar,
          .grp 2 (alts [lit "pending", lit "left", lit "to do"]), wb], 70),
        (seqs [wb, lit "what", .opt (.cls (.ch '\'')), lit "s on my", wb], 75),
        (seqs [wb, lit "what do i ", .grp 1 (alts [lit "have", lit "need"]), lit " to", wb],
          80) ]),
    (.EDIT_TASK,
      [ (seqs [wb, .grp 1 (alts [lit "update", lit "change", lit "edit", lit "modify",
          lit "rename", lit "fix"]), wb, anyStar, wb, lit "task", wb], 90),
        (seqs [wb, .grp 1 (alts [lit "update", lit "change", lit "edit", lit "modify",
          lit "rename"]), wb, anyStar, wb,
          .grp 2 (alts [lit "title", lit "description", lit "name"]), wb], 85),
        (seqs [wb, lit "rename", wb, anyStar, wb, lit "to", wb], 80),
        (seqs [wb, lit "change", wb, anyStar, wb, lit "to", wb], 65),
        (seqs [wb, lit "fix", wb, anyStar, wb, lit "task", wb], 70) ]),
    (.COMPLETE_TASK,
      [ (seqs [wb, .grp 1 (alts [lit "complete", lit "finish", lit "done"]), wb, anyStar,
          wb, lit "task", wb], 90),
        (seqs [wb, lit "mark", wb, anyStar, wb,
          .grp 1 (alts [lit "complete", lit "done", lit "finished"]), wb], 90),
        (seqs [wb, lit "check off", wb], 85),
        (seqs [wb, lit "tick", wb, anyStar, wb, lit "task", wb], 80),
        (seqs [wb, lit "i ", .grp 1 (alts [lit "finished", lit "completed", lit "did"]), wb,
          anyStar, wb, lit "task", wb], 85),
        (seqs [wb, lit "i ", .grp 1 (alts [lit "finished", lit "completed", lit "did"]), wb],
          75),
        (seqs [wb, lit "task", wb, anyStar, wb, .opt (.grp 1 (lit "is ")), lit "done", wb],
          75),
        (seqs [wb, .grp 1 (alts [lit "uncomplete", lit "reopen", lit "undo"]), wb], 85),
        (seqs [wb, lit "mark", wb, anyStar, wb,
          .grp 1 (alts [lit "incomplete", lit "not done"]), wb], 85) ]),
    (.DELETE_TASK,
      [ (seqs [wb, .grp 1 (alts [lit "delete", lit "remove", lit "trash", lit "discard",
          lit "erase"]), wb, anyStar, wb, lit "task", wb], 90),
        (seqs [wb, lit "get rid of", wb], 85),
        (seqs [wb, lit "don", .opt (.cls (.ch '\'')), lit "t need", wb, anyStar, wb,
          .grp 1 (alts [lit "anymore", lit "any more"]), wb], 70),
        (seqs [wb, lit "cancel", wb, anyStar, wb, lit "task", wb], 65),
        (seqs [wb, lit "remove", wb, anyStar, wb, lit "from", wb, anyStar, wb, lit "list",
          wb], 80) ]) ]

def INTENT_TO_TOOL : Intent → Option String
  | .CREATE_TASK => some "add_task"
  | .VIEW_TASKS => some "list_tasks"
  | .EDIT_TASK => some "update_task"
  | .COMPLETE_TASK => some "complete_task"
  | .DELETE_TASK => some "delete_task"
  | .UNKNOWN => none

/-- `TASK_ID_PATTERN`. -/
def TASK_ID_PATTERN : Regex :=
  alts
    [ seqs [wb, lit "task", .star .space, .opt (.cls (.ch '#')), .grp 1 (rplus .digit), wb],
      seqs [wb, .cls (.ch '#'), .grp 2 (rplus .digit), wb],
      seqs [wb, lit "task", rplus .space, .grp 3 (rplus .digit), wb],
      seqs [.startA, .grp 4 (rplus .digit), .endA] ]

/-- `TITLE_PATTERNS`. -/
def TITLE_PATTERNS : List Regex :=
  [ seqs [.cls (.inSet ['\'', '"']), .grp 1 (rplus (.notSet ['\'', '"'])),
      .cls (.inSet ['\'', '"'])],
    seqs [alts [lit "called", lit "named", lit "titled"], rplus .space,
      .grp 1 (rplusL .any), alts [seqs [.star .space, .endA], seqs [rplus .space, lit "and", wb]]],
    seqs [alts [.startA, .cls .space], lit "to", rplus .space, .grp 1 (rplusL .any),
      .star .space, .endA],
    seqs [lit "task", rplus (.setOrSpace [':']), .grp 1 (rplusL .any),
      alts [seqs [.star .space, .endA], seqs [rplus .space, lit "and", wb]]] ]

def get_confidence_level (confidence : Nat) : ConfidenceLevel :=
  if 70 ≤ confidence then .HIGH
  else if 50 ≤ confidence then .MEDIUM
  else if 30 ≤ confidence then .LOW
  else .UNCERTAIN

/-- `get_help_message`, abbreviated to its first line (no claim inspects the
text, only which question is chosen). -/
def get_help_message : String :=
  "I'm not sure what you'd like to do."

def get_clarification_question : Intent → String
  | .CREATE_TASK => "What would you like to add to your task list?"
  | .VIEW_TASKS => "Would you like to see all tasks, or filter by status (completed/incomplete)?"
  | .EDIT_TASK => "Which task would you like to edit? Please provide the task number."
  | .COMPLETE_TASK => "Which task did you complete? Please provide the task number."
  | .DELETE_TASK => "Which task would you like to delete? Please provide the task number."
  | .UNKNOWN => get_help_message

def ciStartsWith (s pre : String) : Bool :=
  (strLower pre).data.isPrefixOf (strLower s).data

/-- `re.sub(r'^(a |an |the |my )', '', title, flags=re.IGNORECASE)`: with the
anchor, at most the leading article is removed, alternatives tried left to
right. -/
def stripArticle (t : String) : String :=
  if ciStartsWith t "a " then ⟨t.data.drop 2⟩
  else if ciStartsWith t "an " then ⟨t.data.drop 3⟩
  else if ciStartsWith t "the " then ⟨t.data.drop 4⟩
  else if ciStartsWith t "my " then ⟨t.data.drop 3⟩
  else t

def tryTitlePatterns (message : String) : List Regex → Option String
  | [] => none
  | p :: rest =>
    match reSearch true p message with
    | some g =>
      match groupStr g 1 with
      | some raw =>
        let t := stripArticle (strStrip raw)
        if t ≠ "" ∧ 1 < t.length then some t else tryTitlePatterns message rest
      | none => tryTitlePatterns message rest
    | none => tryTitlePatterns message rest

/-- The `"add task X"` fallback of `_extract_create_params`. -/
def CREATE_FALLBACK1 : Regex :=
  seqs [wb, alts [lit "add", lit "create", lit "new"], rplus .space,
    alts [lit "task", lit "todo"], rplus .space, .grp 1 (rplus .any)]

/-- The `"i need to X"` fallback of `_extract_create_params`. -/
def CREATE_FALLBACK2 : Regex :=
  seqs [wb, lit "i ", alts [lit "need", lit "have", lit "got"], lit " to", rplus .space,
    .grp 1 (rplusL .any), .star .space, .endA]

def extract_create_title (message : String) : Option String :=
  match tryTitlePatterns message TITLE_PATTERNS with
  | some t => some t
  | none =>
    match reSearch true CREATE_FALLBACK1 message with
    | some g => (groupStr g 1).map strStrip
    | none =>
      match reSearch true CREATE_FALLBACK2 message with
      | some g => (groupStr g 1).map strStrip
      | none => none

def VIEW_DONE : Regex :=
  seqs [wb, .grp 1 (alts [seqs [lit "complete", .opt (.cls (.ch 'd'))], lit "done",
    lit "finished"]), wb]

def VIEW_NEGATED : Regex :=
  alts [seqs [wb, .grp 1 (alts [lit "not", lit "un", lit "in"]), lit "complete", wb],
    seqs [wb, lit "not done", wb], seqs [wb, lit "pending", wb]]

def VIEW_INCOMPLETE : Regex :=
  seqs [wb, .grp 1 (alts [lit "incomplete", lit "pending", lit "not done", lit "left",
    lit "remaining", lit "open"]), wb]

def viewSearchPattern (kw : String) : Regex :=
  seqs [wb, lit kw, rplus .space, .opt (.cls (.inSet ['"', '\''])), .grp 1 (rplus .word),
    .opt (.cls (.inSet ['"', '\'']))]

def VIEW_LIMIT : Regex :=
  seqs [wb, .grp 1 (alts [lit "first", lit "top", lit "last"]), rplus .space,
    .grp 2 (rplus .digit), wb]

def trySearchPatterns (message : String) : List String → Option String
  | [] => none
  | kw :: rest =>
    match reSearch true (viewSearchPattern kw) message with
    | some g => groupStr g 1
    | none => trySearchPatterns message rest

def extract_view_params (message : String) : Option Bool × Option String × Option Int :=
  let ml := strLower message
  let c1 : Option Bool :=
    if reTest false VIEW_DONE ml ∧ ¬reTest false VIEW_NEGATED ml then some true else none
  let c2 : Option Bool := if reTest false VIEW_INCOMPLETE ml then some false else c1
  let search := trySearchPatterns message ["about", "containing", "with", "for"]
  let limit : Option Int :=
    match reSearch false VIEW_LIMIT ml with
    | some g => (groupStr g 2).map (fun ds => (digitsToNat ds.data : Int))
    | none => none
  (c2, search, limit)

def EDIT_QUOTED : Regex :=
  seqs [wb, lit "to", rplus .space, .cls (.inSet ['"', '\'']),
    .grp 1 (rplus (.notSet ['"', '\''])), .cls (.inSet ['"', '\''])]

def EDIT_TRAILING : Regex :=
  seqs [wb, lit "to", rplus .space, .grp 1 (rplusL .any), .star .space, .endA]

def strIsDigit (s : String) : Bool := !s.data.isEmpty && s.data.all Char.isDigit

/-- `_extract_edit_params` (its searches carry no `re.IGNORECASE`). -/
def extract_edit_title (message : String) : Option String :=
  match reSearch false EDIT_QUOTED message with
  | some g => groupStr g 1
  | none =>
    match reSearch false EDIT_TRAILING message with
    | some g =>
      match (groupStr g 1).map strStrip with
      | some t => if t ≠ "" ∧ ¬strIsDigit t then some t else none
      | none => none
    | none => none

def COMPLETE_NEGATED : Regex :=
  seqs [wb, .grp 1 (alts [lit "uncomplete", lit "undo", lit "reopen", lit "not done",
    lit "incomplete"]), wb]

def extract_complete_flag (message : String) : Bool :=
  if reTest false COMPLETE_NEGATED (strLower message) then false else true

def extract_parameters (message : String) (intent : Intent) : ExtractedParams :=
  let task_id : Option Int :=
    match reSearch true TASK_ID_PATTERN message with
    | some g =>
      ((groupStr g 1 <|> groupStr g 2 <|> groupStr g 3 <|> groupStr g 4).map
        (fun ds => (digitsToNat ds.data : Int)))
    | none => none
  let base : ExtractedParams := { task_id := task_id }
  match intent with
  | .CREATE_TASK => { base with title := extract_create_title message }
  | .VIEW_TASKS =>
    let v := extract_view_params message
    { base with completed := v.1, search := v.2.1, limit := v.2.2 }
  | .EDIT_TASK => { base with title := extract_edit_title message }
  | .COMPLETE_TASK => { base with completed := some (extract_complete_flag message) }
  | _ => base

/-- The nested best-match loop of `classify_intent` (strict `>` keeps the
first intent on ties, intents and patterns in declaration order). -/
def bestIntent (ml : String) : Intent × Nat :=
  INTENT_PATTERNS.foldl
    (fun best ip =>
      ip.2.foldl
        (fun b pr => if reTest true pr.1 ml ∧ b.2 < pr.2 then (ip.1, pr.2) else b) best)
    (Intent.UNKNOWN, 0)

def classify_intent (message : String) : IntentResult :=
  let message_lower := strStrip (strLower message)
  let bi := bestIntent message_lower
  let best_intent := bi.1
  let best_confidence := bi.2
  let confidence_level := get_confidence_level best_confidence
  let extracted_params := extract_parameters message best_intent
  let rc : Bool × Option String :=
    if confidence_level = .UNCERTAIN then (true, some get_help_message)
    else if confidence_level = .LOW then (true, some (get_clarification_question best_intent))
    else if (best_intent = .EDIT_TASK ∨ best_intent = .COMPLETE_TASK
        ∨ best_intent = .DELETE_TASK) ∧ extracted_params.task_id = none then
      (true, some "Which task did you mean? Please specify the task number.")
    else (false, none)
  { intent := best_intent, confidence := best_confidence,
    confidence_level := confidence_level, tool_name := INTENT_TO_TOOL best_intent,
    extracted_params := extracted_params, requires_clarification := rc.1,
    clarification_question := rc.2 }

/-! ## Shared concrete fixtures for the witnesses -/

def uuidA : String := "00000000-0000-4000-8000-000000000001"

def uuidB : String := "00000000-0000-4000-8000-000000000002"

def todoW1 : Todo :=
  { id := 1, user_id := uuidA, title := "Buy milk", description := none,
    completed := false, created_at := 10, updated_at := 10 }

def todoW2 : Todo :=
  { id := 2, user_id := uuidA, title := "Write report", description := some "draft",
    completed := true, created_at := 20, updated_at := 20 }

def dbW : DB := ⟨[todoW1, todoW2], 3⟩

def dbEmpty : DB := ⟨[], 1⟩

/-! ## Claims about the registry dispatch and the tool handlers -/

theorem listInfix_append_right (pat : List Char) :
    ∀ (xs ys : List Char), listInfix pat ys = true → listInfix pat (xs ++ ys) = true
  | [], _, h => h
  | x :: xs, ys, h => by
    have ih := listInfix_append_right pat xs ys h
    simp only [List.cons_append, listInfix]
    simp [ih]

/-- C3: `call_tool` is a total function into structured results: an unknown
tool name yields a failed result whose `UNKNOWN_TOOL` error text contains
every known tool name, with the store untouched; an argument-validation
failure yields a failed `VALIDATION_ERROR` result with the store untouched;
and every result payload survives a `json.dumps`/`json.loads` round trip
(JSON-serializability).  No branch raises — `call_tool` is a function, not a
partial computation. -/
theorem c3_call_tool_structured :
    (∀ (name : String) (args : EFields) (db : DB) (now : Nat),
      name ∉ knownToolNames →
        call_tool name args db now =
          ({ tool_name := name, success := false, result := .empty,
             error := some (unknownToolError name) }, db) ∧
        ∀ t ∈ knownToolNames, listInfix t.data (unknownToolError name).data = true) ∧
    (∀ (name : String) (args : EFields) (db : DB) (now : Nat) (m : String),
      name ∈ knownToolNames → parseArgs name args = .error m →
        call_tool name args db now =
          ({ tool_name := name, success := false, result := .empty,
             error := some ("VALIDATION_ERROR: " ++ m) }, db)) ∧
    (∀ (name : String) (args : EFields) (db : DB) (now : Nat),
      loads (dumps (call_tool name args db now).1.result.toEVal) =
        some (call_tool name args db now).1.result.toEVal) := by
  refine ⟨?_, ?_, ?_⟩
  · intro name args db now hname
    constructor
    · simp [call_tool, hname]
    · intro t ht
      fin_cases ht <;>
        · show listInfix _ (("UNKNOWN_TOOL: Tool '" ++ (name ++ ("' does not exist. Available tools: ['add_task', 'list_tasks', 'update_task', 'complete_task', 'delete_task']"))).data) = true
          rw [String.data_append, String.data_append]
          apply listInfix_append_right
          apply listInfix_append_right
          decide
  · intro name args db now m hname hparse
    simp [call_tool, invoke_tool, hname, hparse]
  · intro name args db now
    exact loads_dumps _

/-- C3 witness: an unknown name and a validation failure, on a concrete
store, produce exactly the structured failures and leave the store as it
was. -/
theorem c3_witness :
    (call_tool "bogus_tool" .nil dbW 0 =
      ({ tool_name := "bogus_tool", success := false, result := .empty,
         error := some (unknownToolError "bogus_tool") }, dbW)) ∧
    (call_tool "add_task" .nil dbW 0 =
      ({ tool_name := "add_task", success := false, result := .empty,
         error := some ("VALIDATION_ERROR: " ++ "user_id: Field required") }, dbW)) :=
  ⟨((c3_call_tool_structured.1 "bogus_tool" .nil dbW 0 (by decide)).1),
   (c3_call_tool_structured.2.1 "add_task" .nil dbW 0 "user_id: Field required"
     (by decide) rfl)⟩

/-- C4: when no task with id `X` is owned by `U` — whether the id is absent
altogether or the row belongs to another user — `update_task`,
`complete_task` and `delete_task` each return the same failed
`TASK_NOT_FOUND` result (a value depending only on `X`, so the two cases are
indistinguishable) and leave the store unchanged; none of them raises. -/
theorem c4_ownership_miss_uniform :
    ∀ (db : DB) (now : Nat) (U : String) (X : Int),
      get_user_task db U X = none →
      (∀ (ti de : Option String),
        update_task ⟨U, X, ti, de⟩ db now =
          ({ success := false, task := none, message := "Task not found",
             error := some (taskNotFoundError X) }, db)) ∧
      (∀ c : Bool,
        complete_task ⟨U, X, c⟩ db now =
          ({ success := false, task := none, message := "Task not found",
             error := some (taskNotFoundError X) }, db)) ∧
      delete_task ⟨U, X⟩ db =
        ({ success := false, deleted_task := none, message := "Task not found",
           error := some (taskNotFoundError X) }, db) := by
  intro db now U X h
  refine ⟨fun ti de => ?_, fun c => ?_, ?_⟩ <;>
    simp [update_task, complete_task, delete_task, h]

/-- C4 witness: id `1` owned by another user, and absent id `99`, both on a
concrete store. -/
theorem c4_witness :
    (update_task ⟨uuidB, 1, none, none⟩ dbW 5 =
      ({ success := false, task := none, message := "Task not found",
         error := some (taskNotFoundError 1) }, dbW)) ∧
    (delete_task ⟨uuidB, 99⟩ dbW =
      ({ success := false, deleted_task := none, message := "Task not found",
         error := some (taskNotFoundError 99) }, dbW)) :=
  ⟨(c4_ownership_miss_uniform dbW 5 uuidB 1 (by decide)).1 none none,
   (c4_ownership_miss_uniform dbW 5 uuidB 99 (by decide)).2.2⟩

/-- C5: `update_task` with a task that exists and is owned by the caller but
with neither `title` nor `description` supplied returns the
`VALIDATION_ERROR` failure and returns the store unchanged — in particular
the row's `updated_at` is untouched. -/
theorem c5_update_task_no_fields :
    ∀ (db : DB) (now : Nat) (U : String) (X : Int) (td : Todo),
      get_user_task db U X = some td →
      update_task ⟨U, X, none, none⟩ db now =
        ({ success := false, task := some (todo_to_task_result td),
           message := "No updates provided",
           error := some "VALIDATION_ERROR: At least one of 'title' or 'description' must be provided" },
         db) := by
  intro db now U X td h
  simp [update_task, h]

/-- C5 witness: the concrete store, task 1, its owner, no fields. -/
theorem c5_witness :
    update_task ⟨uuidA, 1, none, none⟩ dbW 99 =
      ({ success := false, task := some (todo_to_task_result todoW1),
         message := "No updates provided",
         error := some "VALIDATION_ERROR: At least one of 'title' or 'description' must be provided" },
       dbW) :=
  c5_update_task_no_fields dbW 99 uuidA 1 todoW1 (by decide)

/-- C10: in `update_task` the ownership/existence check precedes the
argument-presence check: with no fields supplied, a missing or foreign task id
yields `TASK_NOT_FOUND` (not `VALIDATION_ERROR`), and the `VALIDATION_ERROR`
failure is produced only when the task exists and is owned by the caller — and
that failed result still embeds the current, unmodified task. -/
theorem c10_update_task_check_order :
    ∀ (db : DB) (now : Nat) (U : String) (X : Int),
      (get_user_task db U X = none →
        update_task ⟨U, X, none, none⟩ db now =
          ({ success := false, task := none, message := "Task not found",
             error := some (taskNotFoundError X) }, db) ∧
        some (taskNotFoundError X) ≠
          some "VALIDATION_ERROR: At least one of 'title' or 'description' must be provided") ∧
      (∀ td, get_user_task db U X = some td →
        update_task ⟨U, X, none, none⟩ db now =
          ({ success := false, task := some (todo_to_task_result td),
             message := "No updates provided",
             error := some "VALIDATION_ERROR: At least one of 'title' or 'description' must be provided" },
           db)) := by
  intro db now U X
  constructor
  · intro h
    constructor
    · simp [update_task, h]
    · intro heq
      have hh := congrArg (fun o => (o.getD "").data.head?) heq
      simp [taskNotFoundError] at hh
  · intro td h
    simp [update_task, h]

/-- C10 witness: absent id `7` gives `TASK_NOT_FOUND`; owned id `2` with no
fields gives `VALIDATION_ERROR` embedding the stored task. -/
theorem c10_witness :
    (update_task ⟨uuidA, 7, none, none⟩ dbW 3 =
      ({ success := false, task := none, message := "Task not found",
         error := some (taskNotFoundError 7) }, dbW)) ∧
    (update_task ⟨uuidA, 2, none, none⟩ dbW 3 =
      ({ success := false, task := some (todo_to_task_result todoW2),
         message := "No updates provided",
         error := some "VALIDATION_ERROR: At least one of 'title' or 'description' must be provided" },
       dbW)) :=
  ⟨((c10_update_task_check_order dbW 3 uuidA 7).1 (by decide)).1,
   (c10_update_task_check_order dbW 3 uuidA 2).2 todoW2 (by decide)⟩

/-! ## The intent-classifier claim -/

set_option maxRecDepth 10000 in
/-- C9: on `"mark task 3 as done"` the classifier picks the complete-task
operation (tool `complete_task`), extracts `task_id = 3`, lands in the high
confidence bucket (`0.9`, here in hundredths: `90 ≥ 70`), and asks no
clarification. -/
theorem c9_classify_mark_task_3_done :
    (classify_intent "mark task 3 as done").intent = Intent.COMPLETE_TASK ∧
    (classify_intent "mark task 3 as done").tool_name = some "complete_task" ∧
    (classify_intent "mark task 3 as done").extracted_params.task_id = some 3 ∧
    70 ≤ (classify_intent "mark task 3 as done").confidence ∧
    (classify_intent "mark task 3 as done").confidence_level = ConfidenceLevel.HIGH ∧
    (classify_intent "mark task 3 as done").requires_clarification = false := by
  decide

/-! ## The list_tasks claim -/

/-- The claim-side filter: owned by the caller, matching the completion flag
when supplied, case-insensitive substring match of the search term against
the title when supplied. -/
def matchesFilter (input_data : ListTasksInput) (t : Todo) : Bool :=
  t.user_id = input_data.user_id &&
  (match input_data.completed with | none => true | some c => t.completed = c) &&
  (match input_data.search with | none => true | some q => ilikeContains t.title q)

theorem listFiltered_eq_filter (input_data : ListTasksInput) (db : DB) :
    listFiltered input_data db = db.todos.filter (matchesFilter input_data) := by
  unfold listFiltered matchesFilter
  cases input_data.completed <;> cases input_data.search <;>
    simp [List.filter_filter] <;>
    (apply List.filter_congr; intro t _;
     simp [Bool.and_comm, Bool.and_left_comm, Bool.and_assoc])

theorem mem_insertByCreatedDesc (t x : Todo) :
    ∀ l : List Todo, x ∈ insertByCreatedDesc t l ↔ x = t ∨ x ∈ l
  | [] => by simp [insertByCreatedDesc]
  | h :: r => by
    have ih := mem_insertByCreatedDesc t x r
    by_cases hc : h.created_at ≤ t.created_at <;>
      simp [insertByCreatedDesc, hc, ih] <;> tauto

theorem mem_sortByCreatedDesc (x : Todo) :
    ∀ l : List Todo, x ∈ sortByCreatedDesc l ↔ x ∈ l
  | [] => by simp [sortByCreatedDesc]
  | t :: r => by
    have ih := mem_sortByCreatedDesc x r
    simp [sortByCreatedDesc, mem_insertByCreatedDesc, ih]

theorem pairwise_insertByCreatedDesc (t : Todo) :
    ∀ l : List Todo, l.Pairwise (fun a b => b.created_at ≤ a.created_at) →
      (insertByCreatedDesc t l).Pairwise (fun a b => b.created_at ≤ a.created_at)
  | [], _ => by simp [insertByCreatedDesc]
  | h :: r, hp => by
    rw [List.pairwise_cons] at hp
    obtain ⟨hhr, hr⟩ := hp
    by_cases hc : h.created_at ≤ t.created_at
    · simp only [insertByCreatedDesc, if_pos hc, List.pairwise_cons]
      refine ⟨?_, ?_, hr⟩
      · intro x hx
        rcases List.mem_cons.mp hx with rfl | hx
        · exact hc
        · exact le_trans (hhr x hx) hc
      · exact hhr
    · simp only [insertByCreatedDesc, if_neg hc, List.pairwise_cons]
      refine ⟨?_, pairwise_insertByCreatedDesc t r hr⟩
      intro x hx
      rcases (mem_insertByCreatedDesc t x r).mp hx with rfl | hx
      · omega
      · exact hhr x hx

theorem pairwise_sortByCreatedDesc :
    ∀ l : List Todo,
      (sortByCreatedDesc l).Pairwise (fun a b => b.created_at ≤ a.created_at)
  | [] => by simp [sortByCreatedDesc]
  | t :: r => by
    have ih := pairwise_sortByCreatedDesc r
    exact pairwise_insertByCreatedDesc t (sortByCreatedDesc r) ih

theorem likeMatch_pct : ∀ (fuel : Nat) (t : List Char), t.length + 1 < fuel →
    likeMatch fuel ['%'] t = true
  | 0, _, h => absurd h (by omega)
  | 1, _, h => absurd h (by omega)
  | fuel + 2, [], _ => by simp [likeMatch]
  | fuel + 2, c :: t, h => by
    have ih := likeMatch_pct (fuel + 1) t
      (by simp only [List.length_cons] at h; omega)
    have e : likeMatch (fuel + 2) ['%'] (c :: t)
        = (likeMatch (fuel + 1) [] (c :: t) || likeMatch (fuel + 1) ['%'] t) := rfl
    rw [e, ih]
    simp

theorem likeMatch_prefix : ∀ (fuel : Nat) (s t : List Char),
    '%' ∉ s → '_' ∉ s → s.length + t.length + 1 < fuel →
    likeMatch fuel (s ++ ['%']) t = s.isPrefixOf t
  | fuel, [], t, _, _, h => by
    simp only [List.nil_append]
    rw [likeMatch_pct fuel t (by simpa using h)]
    simp [List.isPrefixOf]
  | fuel + 1, a :: s, [], hp, _hu, _h => by
    have ha : (a == '%') = false :=
      beq_eq_false_iff_ne.mpr (fun he => hp (he ▸ List.mem_cons_self a s))
    have e : likeMatch (fuel + 1) ((a :: s) ++ ['%']) []
        = (a == '%' && likeMatch fuel (s ++ ['%']) []) := rfl
    rw [e, ha]
    simp [List.isPrefixOf]
  | fuel + 1, a :: s, c :: t, hp, hu, h => by
    have ha : (a == '%') = false :=
      beq_eq_false_iff_ne.mpr (fun he => hp (he ▸ List.mem_cons_self a s))
    have ha' : (a == '_') = false :=
      beq_eq_false_iff_ne.mpr (fun he => hu (he ▸ List.mem_cons_self a s))
    have ih := likeMatch_prefix fuel s t
      (fun hm => hp (List.mem_cons_of_mem a hm))
      (fun hm => hu (List.mem_cons_of_mem a hm))
      (by simp only [List.length_cons] at h; omega)
    have e : likeMatch (fuel + 1) ((a :: s) ++ ['%']) (c :: t)
        = if a == '%' then
            likeMatch fuel (s ++ ['%']) (c :: t) || likeMatch fuel ((a :: s) ++ ['%']) t
          else (a == '_' || a == c) && likeMatch fuel (s ++ ['%']) t := rfl
    rw [e, ih]
    simp [ha, ha', List.isPrefixOf]

theorem likeMatch_search : ∀ (fuel : Nat) (s t : List Char),
    '%' ∉ s → '_' ∉ s → s.length + t.length + 2 < fuel →
    likeMatch fuel ('%' :: (s ++ ['%'])) t = listInfix s t
  | 0, _, _, _, _, h => absurd h (by omega)
  | fuel + 1, s, [], hp, hu, h => by
    have e : likeMatch (fuel + 1) ('%' :: (s ++ ['%'])) []
        = ('%' == '%' && likeMatch fuel (s ++ ['%']) []) := rfl
    rw [e, likeMatch_prefix fuel s [] hp hu (by simp at h ⊢; omega)]
    cases s <;> simp [listInfix, List.isPrefixOf]
  | fuel + 1, s, c :: t, hp, hu, h => by
    have e : likeMatch (fuel + 1) ('%' :: (s ++ ['%'])) (c :: t)
        = (likeMatch fuel (s ++ ['%']) (c :: t)
            || likeMatch fuel ('%' :: (s ++ ['%'])) t) := rfl
    rw [e, likeMatch_prefix fuel s (c :: t) hp hu
        (by simp only [List.length_cons] at h ⊢; omega),
      likeMatch_search fuel s t hp hu
        (by simp only [List.length_cons] at h; omega)]
    simp [listInfix]

theorem toLower_eq_nonletter {c d : Char}
    (hd : d.toNat < 97 ∨ 122 < d.toNat) (h : c.toLower = d) : c = d := by
  simp only [Char.toLower] at h
  split at h
  · next hcond =>
    exfalso
    obtain ⟨n, hn, hl, hr⟩ : ∃ n, c.toNat = n ∧ 65 ≤ n ∧ n ≤ 90 :=
      ⟨c.toNat, rfl, hcond.1, hcond.2⟩
    rw [hn] at h
    interval_cases n <;> (subst h; exact absurd hd (by decide))
  · exact h

theorem mem_strLower_symbol {d : Char} (hd : d.toNat < 97 ∨ 122 < d.toNat)
    (q : String) (h : d ∈ (strLower q).data) : d ∈ q.data := by
  rcases List.mem_map.mp h with ⟨c, hc, he⟩
  exact (toLower_eq_nonletter hd he) ▸ hc

/-- On a search term free of SQL wildcards the faithful `ILIKE` filter is
exactly case-insensitive substring matching of the term against the title. -/
theorem ilikeContains_noWildcard (title search : String)
    (hp : '%' ∉ search.data) (hu : '_' ∉ search.data) :
    ilikeContains title search
      = listInfix (strLower search).data (strLower title).data := by
  have hp' : '%' ∉ (strLower search).data :=
    fun hm => hp (mem_strLower_symbol (by decide) search hm)
  have hu' : '_' ∉ (strLower search).data :=
    fun hm => hu (mem_strLower_symbol (by decide) search hm)
  unfold ilikeContains
  exact likeMatch_search _ _ _ hp' hu'
    (by simp only [List.length_cons, List.length_append]; omega)

/-- C6 (amended): with a valid input (`1 ≤ limit ≤ 100`, `offset ≥ 0`),
`list_tasks` leaves the store unchanged and returns: a page equal to the
filtered rows sorted newest-created-first, sliced by `offset`/`limit`; only
rows owned by the caller that match the completion filter and the `ILIKE`
title filter (`%search%` with the term unescaped, so `%`/`_` in it stay
wildcards); at most `limit` rows, pairwise ordered newest-first; and a
`total` equal to the number of matching rows before pagination.  The last
conjunct recovers the substring wording: on a search term with no SQL
wildcard the `ILIKE` filter is exactly case-insensitive substring match of
the term against the title. -/
theorem c6_list_tasks_page :
    ∀ (input_data : ListTasksInput) (db : DB),
      1 ≤ input_data.limit → input_data.limit ≤ 100 → 0 ≤ input_data.offset →
      (list_tasks input_data db).2 = db ∧
      (list_tasks input_data db).1.success = true ∧
      (list_tasks input_data db).1.total
        = (db.todos.filter (matchesFilter input_data)).length ∧
      (list_tasks input_data db).1.tasks
        = (((sortByCreatedDesc (db.todos.filter (matchesFilter input_data))).drop
            input_data.offset.toNat).take input_data.limit.toNat).map todo_to_task_result ∧
      (list_tasks input_data db).1.tasks.length ≤ input_data.limit.toNat ∧
      (∀ tr ∈ (list_tasks input_data db).1.tasks,
        ∃ t, t ∈ db.todos ∧ matchesFilter input_data t = true
          ∧ tr = todo_to_task_result t) ∧
      (list_tasks input_data db).1.tasks.Pairwise
        (fun a b => b.created_at ≤ a.created_at) ∧
      (∀ (q title : String), '%' ∉ q.data → '_' ∉ q.data →
        ilikeContains title q
          = listInfix (strLower q).data (strLower title).data) := by
  intro input_data db _ _ _
  have hf := listFiltered_eq_filter input_data db
  refine ⟨rfl, rfl, ?_, ?_, ?_, ?_, ?_, fun q title hp hu =>
    ilikeContains_noWildcard title q hp hu⟩
  · simp [list_tasks, hf]
  · simp [list_tasks, hf]
  · simp only [list_tasks, hf]
    calc ((((sortByCreatedDesc (db.todos.filter (matchesFilter input_data))).drop
            input_data.offset.toNat).take input_data.limit.toNat).map todo_to_task_result).length
        = (((sortByCreatedDesc (db.todos.filter (matchesFilter input_data))).drop
            input_data.offset.toNat).take input_data.limit.toNat).length := by
          rw [List.length_map]
      _ ≤ input_data.limit.toNat := List.length_take_le _ _
  · intro tr htr
    simp only [list_tasks, hf, List.mem_map] at htr
    obtain ⟨t, ht, rfl⟩ := htr
    have ht' : t ∈ sortByCreatedDesc (db.todos.filter (matchesFilter input_data)) :=
      List.Sublist.mem ht ((List.take_sublist _ _).trans (List.drop_sublist _ _))
    have ht'' := (mem_sortByCreatedDesc t _).mp ht'
    rw [List.mem_filter] at ht''
    exact ⟨t, ht''.1, ht''.2, rfl⟩
  · simp only [list_tasks, hf]
    rw [List.pairwise_map]
    apply List.Pairwise.sublist ((List.take_sublist _ _).trans (List.drop_sublist _ _))
    exact pairwise_sortByCreatedDesc _

def inpW : ListTasksInput := ⟨uuidA, none, none, 50, 0⟩

/-- C6 witness: the default pagination on the concrete two-row store. -/
theorem c6_witness :
    (list_tasks inpW dbW).2 = dbW ∧
    (list_tasks inpW dbW).1.success = true ∧
    (list_tasks inpW dbW).1.total = (dbW.todos.filter (matchesFilter inpW)).length ∧
    (list_tasks inpW dbW).1.tasks
      = (((sortByCreatedDesc (dbW.todos.filter (matchesFilter inpW))).drop
          inpW.offset.toNat).take inpW.limit.toNat).map todo_to_task_result ∧
    (list_tasks inpW dbW).1.tasks.length ≤ inpW.limit.toNat ∧
    (∀ tr ∈ (list_tasks inpW dbW).1.tasks,
      ∃ t, t ∈ dbW.todos ∧ matchesFilter inpW t = true ∧ tr = todo_to_task_result t) ∧
    (list_tasks inpW dbW).1.tasks.Pairwise (fun a b => b.created_at ≤ a.created_at) ∧
    (∀ (q title : String), '%' ∉ q.data → '_' ∉ q.data →
      ilikeContains title q
        = listInfix (strLower q).data (strLower title).data) :=
  c6_list_tasks_page inpW dbW (by decide) (by decide) (by decide)

def inpPct : ListTasksInput := ⟨uuidA, none, some "%", 50, 0⟩

/-- C6 counterexample: with the search term `"%"` (an SQL wildcard passed
unescaped to `ilike`), the program returns both stored rows — `total = 2` —
although neither title contains the character `%`, so the literal
case-insensitive-substring filter of the claim as stated keeps zero rows. -/
theorem c6_counterexample :
    (list_tasks inpPct dbW).1.total = 2 ∧
    (dbW.todos.filter
      (fun t => listInfix (strLower "%").data (strLower t.title).data)).length = 0 := by
  constructor
  · decide
  · decide

/-! ## The user-id injection claim -/

theorem parseArgs_ext (name : String) (a b : EFields)
    (h : ∀ k, elookup k a = elookup k b) : parseArgs name a = parseArgs name b := by
  unfold parseArgs AddTaskInput.parse ListTasksInput.parse UpdateTaskInput.parse
    CompleteTaskInput.parse DeleteTaskInput.parse
  simp only [h]

theorem call_tool_ext (name : String) (a b : EFields) (db : DB) (now : Nat)
    (h : ∀ k, elookup k a = elookup k b) :
    call_tool name a db now = call_tool name b db now := by
  unfold call_tool invoke_tool
  rw [parseArgs_ext name a b h]

/-- C2: `_execute_tool_call` overwrites the `user_id` argument with the
authenticated user's identifier before dispatch: after injection the
`user_id` entry is exactly the authenticated id, and two argument
dictionaries that agree on everything except the model-supplied `user_id`
produce pointwise-equal dictionaries after injection and identical dispatched
calls (same `call_tool` result and same resulting store), so the dispatch is
independent of the model-supplied `user_id`. -/
theorem c2_user_id_injection :
    ∀ (user_id : String) (args1 args2 : EFields),
      (∀ k, k ≠ "user_id" → elookup k args1 = elookup k args2) →
      elookup "user_id" (inject_user_id user_id args1) = some (.s user_id) ∧
      (∀ k, elookup k (inject_user_id user_id args1)
          = elookup k (inject_user_id user_id args2)) ∧
      (∀ (name : String) (db : DB) (now : Nat),
        call_tool name (inject_user_id user_id args1) db now
          = call_tool name (inject_user_id user_id args2) db now) := by
  intro user_id args1 args2 h
  have hAll : ∀ k, elookup k (inject_user_id user_id args1)
      = elookup k (inject_user_id user_id args2) := by
    intro k
    by_cases hk : k = "user_id"
    · subst hk
      simp [inject_user_id, elookup_dictSet]
    · simp [inject_user_id, elookup_dictSet, hk, h k hk]
  refine ⟨?_, hAll, ?_⟩
  · simp [inject_user_id, elookup_dictSet]
  · intro name db now
    exact call_tool_ext name _ _ db now hAll

def argsEvil : EFields :=
  .cons "user_id" (.s "11111111-1111-4111-8111-111111111111")
    (.cons "title" (.s "Buy milk") .nil)

def argsPlain : EFields := .cons "title" (.s "Buy milk") .nil

/-- C2 witness: a model-supplied foreign `user_id` versus no `user_id` at
all; after injection the dispatched `add_task` calls coincide. -/
theorem c2_witness :
    elookup "user_id" (inject_user_id uuidA argsEvil) = some (.s uuidA) ∧
    call_tool "add_task" (inject_user_id uuidA argsEvil) dbW 7
      = call_tool "add_task" (inject_user_id uuidA argsPlain) dbW 7 :=
  ⟨(c2_user_id_injection uuidA argsEvil argsPlain
      (by
        intro k hk
        simp only [argsEvil, argsPlain, elookup]
        rw [if_neg (fun hh => hk hh.symm)])).1,
   (c2_user_id_injection uuidA argsEvil argsPlain
      (by
        intro k hk
        simp only [argsEvil, argsPlain, elookup]
        rw [if_neg (fun hh => hk hh.symm)])).2.2 "add_task" dbW 7⟩

/-! ## The tool-call normalization claim -/

/-- An entry already in the OpenAI wire shape: a dict holding `id`, `type`
and `function` keys (the first branch of `_normalize_tool_calls`). -/
def isWireShaped : EVal → Bool
  | .obj tc =>
    (elookup "id" tc).isSome && (elookup "type" tc).isSome
      && (elookup "function" tc).isSome
  | _ => false

theorem normalizeEntry_wire (v : EVal) (h : isWireShaped v = true) :
    normalizeEntry v = some v := by
  cases v
  case obj tc =>
    simp only [isWireShaped] at h
    simp only [normalizeEntry]
    rw [if_pos h]
  all_goals simp [isWireShaped] at h

theorem normalizeEntry_shape (v w : EVal) (h : normalizeEntry v = some w) :
    isWireShaped w = true := by
  cases v
  case obj tc =>
    simp only [normalizeEntry] at h
    split at h
    · next hcond =>
      injection h with h
      subst h
      simp only [isWireShaped]
      exact hcond
    · split at h <;>
        first
          | (injection h with h; subst h; simp [isWireShaped, elookup])
          | exact Option.noConfusion h
  all_goals simp [normalizeEntry] at h

theorem normalize_tool_calls_idem (l : List EVal) :
    normalize_tool_calls (normalize_tool_calls l) = normalize_tool_calls l := by
  induction l with
  | nil => rfl
  | cons e rest ih =>
    simp only [normalize_tool_calls, List.filterMap_cons] at ih ⊢
    cases he : normalizeEntry e with
    | none => exact ih
    | some w =>
      have hw : normalizeEntry w = some w :=
        normalizeEntry_wire w (normalizeEntry_shape e w he)
      simp [List.filterMap_cons, hw, ih]

/-- C8: `_normalize_tool_calls` is a lossless round trip on storage-shaped
entries, a pass-through on wire-shaped ones, and drops the rest.
(a) A storage-shaped entry (not wire-shaped; carrying `tool_call_id`,
`tool_name` and a dict `arguments`) is converted to the wire entry whose
function name is the stored tool name and whose argument string is the JSON
serialization of the stored argument dict, and parsing that string recovers
the argument dict exactly (byte-for-byte, key order included).
(b) A wire-shaped entry is passed through unchanged, and normalization is
idempotent on whole lists.
(c) A non-dict entry, and a dict that is neither wire-shaped nor carries
both `tool_call_id` and `tool_name`, is dropped (normalizes to `none`), and
a dropped entry merely disappears from the output list — the build never
aborts. -/
theorem c8_normalize_round_trip :
    (∀ (cid nm : EVal) (args tc : EFields),
      isWireShaped (.obj tc) = false →
      elookup "tool_call_id" tc = some cid →
      elookup "tool_name" tc = some nm →
      elookup "arguments" tc = some (.obj args) →
      normalizeEntry (.obj tc)
        = some (.obj (.cons "id" cid (.cons "type" (.s "function")
            (.cons "function" (.obj (.cons "name" nm
              (.cons "arguments" (.s (dumps (.obj args))) .nil))) .nil)))) ∧
      loads (dumps (.obj args)) = some (.obj args)) ∧
    (∀ v : EVal, isWireShaped v = true → normalizeEntry v = some v) ∧
    (∀ l : List EVal,
      normalize_tool_calls (normalize_tool_calls l) = normalize_tool_calls l) ∧
    (∀ s : String, normalizeEntry (.s s) = none) ∧
    (∀ tc : EFields,
      isWireShaped (.obj tc) = false →
      elookup "tool_call_id" tc = none ∨ elookup "tool_name" tc = none →
      normalizeEntry (.obj tc) = none) ∧
    (∀ (e : EVal) (l : List EVal), normalizeEntry e = none →
      normalize_tool_calls (e :: l) = normalize_tool_calls l) := by
  refine ⟨?_, normalizeEntry_wire, normalize_tool_calls_idem, fun s => rfl, ?_, ?_⟩
  · intro cid nm args tc hwire hcid hnm hargs
    have hcond : ¬(((elookup "id" tc).isSome && (elookup "type" tc).isSome
        && (elookup "function" tc).isSome) = true) := by
      simp only [isWireShaped] at hwire
      simp [hwire]
    refine ⟨?_, loads_dumps _⟩
    simp only [normalizeEntry, if_neg hcond, hcid, hnm, hargs, Option.getD_some,
      argumentsStr]
  · intro tc hwire hmiss
    have hcond : ¬(((elookup "id" tc).isSome && (elookup "type" tc).isSome
        && (elookup "function" tc).isSome) = true) := by
      simp only [isWireShaped] at hwire
      simp [hwire]
    simp only [normalizeEntry, if_neg hcond]
    rcases hmiss with h | h
    · rw [h]
    · rw [h]
      cases elookup "tool_call_id" tc <;> rfl
  · intro e l he
    simp [normalize_tool_calls, List.filterMap_cons, he]

def tcStorageW : EFields :=
  .cons "tool_call_id" (.s "call_abc123")
    (.cons "tool_name" (.s "add_task")
      (.cons "arguments" (.obj (.cons "title" (.s "Buy milk") .nil)) .nil))

/-- C8 witness: a concrete storage-shaped entry is converted to its wire
shape, the argument payload survives the JSON round trip, and normalizing
its singleton list twice equals normalizing it once. -/
theorem c8_witness :
    normalizeEntry (.obj tcStorageW)
      = some (.obj (.cons "id" (.s "call_abc123") (.cons "type" (.s "function")
          (.cons "function" (.obj (.cons "name" (.s "add_task")
            (.cons "arguments"
              (.s (dumps (.obj (.cons "title" (.s "Buy milk") .nil)))) .nil)))
            .nil)))) ∧
    loads (dumps (.obj (.cons "title" (.s "Buy milk") .nil)))
      = some (.obj (.cons "title" (.s "Buy milk") .nil)) ∧
    normalize_tool_calls (normalize_tool_calls [.obj tcStorageW])
      = normalize_tool_calls [.obj tcStorageW] :=
  ⟨(c8_normalize_round_trip.1 (.s "call_abc123") (.s "add_task")
      (.cons "title" (.s "Buy milk") .nil) tcStorageW (by decide) rfl rfl rfl).1,
   (c8_normalize_round_trip.1 (.s "call_abc123") (.s "add_task")
      (.cons "title" (.s "Buy milk") .nil) tcStorageW (by decide) rfl rfl rfl).2,
   c8_normalize_round_trip.2.2.1 [.obj tcStorageW]⟩

/-! ## The tool-protocol invariant of the loop -/

/-- The invocation id stored in a wire-shaped tool-call entry. -/
def entryId : EVal → Option String
  | .obj tc =>
    match elookup "id" tc with
    | some (.s s) => some s
    | _ => none
  | _ => none

/-- `m` is the tool-role message answering the invocation request `tcv`:
role `tool`, tagged with exactly the request's invocation id. -/
def toolRespOk (tcv : EVal) (m : RMessage) : Bool :=
  m.role == "tool" && m.tool_call_id == entryId tcv && (entryId tcv).isSome

/-- Consume one tool-role message per invocation request, in request order;
`some ms'` is the remaining suffix, `none` a protocol violation. -/
def blockOk : List EVal → List RMessage → Option (List RMessage)
  | [], ms => some ms
  | _ :: _, [] => none
  | tcv :: rest, m :: ms => if toolRespOk tcv m then blockOk rest ms else none

/-- The protocol invariant, with fuel (any fuel at least the list length
gives the same verdict): every assistant message carrying tool-invocation
requests is immediately followed by exactly its matching block of tool-role
answers. -/
def protocolOkFuel : Nat → List RMessage → Bool
  | _, [] => true
  | 0, _ :: _ => false
  | n + 1, m :: ms =>
    if m.role == "assistant" && !m.tool_calls.isEmpty then
      match blockOk m.tool_calls ms with
      | some ms' => protocolOkFuel n ms'
      | none => false
    else
      protocolOkFuel n ms

def protocolOk (l : List RMessage) : Bool := protocolOkFuel l.length l

theorem blockOk_length :
    ∀ (tcs : List EVal) (ms ms' : List RMessage),
      blockOk tcs ms = some ms' → ms'.length ≤ ms.length
  | [], ms, ms' => by
    intro h
    simp only [blockOk] at h
    injection h with h
    subst h
    exact Nat.le_refl _
  | _ :: _, [], ms' => by
    intro h
    exact Option.noConfusion h
  | tcv :: rest, m :: ms, ms' => by
    intro h
    simp only [blockOk] at h
    split at h
    · exact Nat.le_succ_of_le (blockOk_length rest ms ms' h)
    · exact Option.noConfusion h

theorem blockOk_append :
    ∀ (tcs : List EVal) (ms ms' l2 : List RMessage),
      blockOk tcs ms = some ms' → blockOk tcs (ms ++ l2) = some (ms' ++ l2)
  | [], ms, ms', l2 => by
    intro h
    simp only [blockOk] at h ⊢
    injection h with h
    subst h
    rfl
  | _ :: _, [], ms', l2 => by
    intro h
    exact Option.noConfusion h
  | tcv :: rest, m :: ms, ms', l2 => by
    intro h
    simp only [blockOk, List.cons_append] at h ⊢
    split at h
    · next hok =>
      rw [if_pos hok]
      exact blockOk_append rest ms ms' l2 h
    · exact Option.noConfusion h

theorem protocolOkFuel_of_le :
    ∀ (n : Nat) (l : List RMessage), l.length ≤ n →
      protocolOkFuel n l = protocolOk l
  | n, [] => by
    intro _
    cases n <;> rfl
  | 0, m :: ms => by
    intro h
    simp at h
  | n + 1, m :: ms => by
    intro hl
    simp only [protocolOk, List.length_cons, protocolOkFuel]
    by_cases hc : (m.role == "assistant" && !m.tool_calls.isEmpty) = true
    · rw [if_pos hc, if_pos hc]
      cases hb : blockOk m.tool_calls ms with
      | none => rfl
      | some ms' =>
        have hlen := blockOk_length m.tool_calls ms ms' hb
        have h1 : protocolOkFuel n ms' = protocolOk ms' :=
          protocolOkFuel_of_le n ms'
            (by simp only [List.length_cons] at hl; omega)
        have h2 : protocolOkFuel ms.length ms' = protocolOk ms' :=
          protocolOkFuel_of_le ms.length ms' hlen
        show protocolOkFuel n ms' = protocolOkFuel ms.length ms'
        rw [h1, h2]
    · rw [if_neg hc, if_neg hc]
      have h1 : protocolOkFuel n ms = protocolOk ms :=
        protocolOkFuel_of_le n ms
          (by simp only [List.length_cons] at hl; omega)
      have h2 : protocolOkFuel ms.length ms = protocolOk ms :=
        protocolOkFuel_of_le ms.length ms (Nat.le_refl _)
      rw [h1, h2]
termination_by _n l => l.length
decreasing_by
  all_goals (simp only [List.length_cons]; omega)

theorem protocolOk_append :
    ∀ (l1 l2 : List RMessage), protocolOk l1 = true → protocolOk l2 = true →
      protocolOk (l1 ++ l2) = true
  | [], l2 => fun _ h2 => by simpa using h2
  | m :: ms, l2 => fun h1 h2 => by
    simp only [protocolOk, List.length_cons, protocolOkFuel] at h1
    simp only [List.cons_append, protocolOk, List.length_cons, protocolOkFuel,
      List.append_eq]
    by_cases hc : (m.role == "assistant" && !m.tool_calls.isEmpty) = true
    · rw [if_pos hc] at h1
      rw [if_pos hc]
      cases hb : blockOk m.tool_calls ms with
      | none =>
        rw [hb] at h1
        exact absurd h1 (by simp)
      | some ms' =>
        rw [hb] at h1
        have h1' : protocolOkFuel ms.length ms' = true := h1
        have hlen := blockOk_length m.tool_calls ms ms' hb
        have hms' : protocolOk ms' = true := by
          rw [← protocolOkFuel_of_le ms.length ms' hlen]
          exact h1'
        rw [blockOk_append m.tool_calls ms ms' l2 hb]
        show protocolOkFuel (ms ++ l2).length (ms' ++ l2) = true
        rw [protocolOkFuel_of_le (ms ++ l2).length (ms' ++ l2)
          (by simp only [List.length_append]; omega)]
        exact protocolOk_append ms' l2 hms' h2
    · rw [if_neg hc] at h1
      rw [if_neg hc]
      have hms : protocolOk ms = true := by
        rw [← protocolOkFuel_of_le ms.length ms (Nat.le_refl _)]
        exact h1
      show protocolOkFuel (ms ++ l2).length (ms ++ l2) = true
      rw [protocolOkFuel_of_le (ms ++ l2).length (ms ++ l2) (Nat.le_refl _)]
      exact protocolOk_append ms l2 hms h2
termination_by l1 _l2 => l1.length
decreasing_by
  all_goals (simp only [List.length_cons]; omega)

theorem protocolOk_block (c : String) (tcs : List ToolCall) (r1 : List RMessage)
    (hne : tcs ≠ []) (hb : blockOk (tcs.map toolCallToEVal) r1 = some []) :
    protocolOk ({ role := "assistant", content := c,
                  tool_calls := tcs.map toolCallToEVal } :: r1) = true := by
  cases tcs with
  | nil => exact absurd rfl hne
  | cons t ts =>
    simp only [List.map_cons] at hb
    simp only [protocolOk, List.length_cons, protocolOkFuel, List.map_cons]
    rw [if_pos (by simp)]
    rw [hb]
    show protocolOkFuel r1.length [] = true
    simp only [protocolOkFuel]

theorem entryId_toolCallToEVal (tc : ToolCall) :
    entryId (toolCallToEVal tc) = some tc.id := by
  simp [entryId, toolCallToEVal, elookup]

theorem toolRespOk_round (tc : ToolCall) (cont : String) :
    toolRespOk (toolCallToEVal tc)
      { role := "tool", content := cont,
        tool_call_id := some tc.id, name := some tc.function.name } = true := by
  simp [toolRespOk, entryId_toolCallToEVal]

theorem execRound_blockOk (user_id : String) (now : Nat) :
    ∀ (tcs : List ToolCall) (db : DB),
      (execRound user_id now tcs db).2.2.2 = none →
      blockOk (tcs.map toolCallToEVal) (execRound user_id now tcs db).1 = some []
  | [], _db => fun _ => rfl
  | tc :: rest, db => fun h => by
    cases hl : loads tc.function.arguments with
    | some v =>
      cases v with
      | obj args =>
        rcases hcall : call_tool tc.function.name (inject_user_id user_id args) db now
          with ⟨result, db'⟩
        rcases hrec : execRound user_id now rest db' with ⟨msgs, entries, db'', err⟩
        simp only [execRound, hl, hcall, hrec] at h ⊢
        have hrest := execRound_blockOk user_id now rest db'
          (by rw [hrec]; exact h)
        rw [hrec] at hrest
        simp only [List.map_cons, blockOk, toolRespOk_round, if_pos]
        exact hrest
      | null =>
        rcases hrec : execRound user_id now rest db with ⟨msgs, entries, db'', err⟩
        simp only [execRound, hl, hrec] at h ⊢
        have hrest := execRound_blockOk user_id now rest db
          (by rw [hrec]; exact h)
        rw [hrec] at hrest
        simp only [List.map_cons, blockOk, toolRespOk_round, if_pos]
        exact hrest
      | b bv =>
        rcases hrec : execRound user_id now rest db with ⟨msgs, entries, db'', err⟩
        simp only [execRound, hl, hrec] at h ⊢
        have hrest := execRound_blockOk user_id now rest db
          (by rw [hrec]; exact h)
        rw [hrec] at hrest
        simp only [List.map_cons, blockOk, toolRespOk_round, if_pos]
        exact hrest
      | i iv =>
        rcases hrec : execRound user_id now rest db with ⟨msgs, entries, db'', err⟩
        simp only [execRound, hl, hrec] at h ⊢
        have hrest := execRound_blockOk user_id now rest db
          (by rw [hrec]; exact h)
        rw [hrec] at hrest
        simp only [List.map_cons, blockOk, toolRespOk_round, if_pos]
        exact hrest
      | s sv =>
        rcases hrec : execRound user_id now rest db with ⟨msgs, entries, db'', err⟩
        simp only [execRound, hl, hrec] at h ⊢
        have hrest := execRound_blockOk user_id now rest db
          (by rw [hrec]; exact h)
        rw [hrec] at hrest
        simp only [List.map_cons, blockOk, toolRespOk_round, if_pos]
        exact hrest
      | arr items =>
        rcases hrec : execRound user_id now rest db with ⟨msgs, entries, db'', err⟩
        simp only [execRound, hl, hrec] at h ⊢
        have hrest := execRound_blockOk user_id now rest db
          (by rw [hrec]; exact h)
        rw [hrec] at hrest
        simp only [List.map_cons, blockOk, toolRespOk_round, if_pos]
        exact hrest
    | none =>
      by_cases he : tc.function.arguments = ""
      · rcases hrec : execRound user_id now rest db with ⟨msgs, entries, db'', err⟩
        simp only [execRound, hl, hrec, if_pos he] at h ⊢
        have hrest := execRound_blockOk user_id now rest db
          (by rw [hrec]; exact h)
        rw [hrec] at hrest
        simp only [List.map_cons, blockOk, toolRespOk_round, if_pos]
        exact hrest
      · simp only [execRound, hl, if_neg he] at h
        exact Option.noConfusion h

/-- The loop state carried out of `_process_response`, on both the normal
and the exceptional exit. -/
def loopStateOf : Except (String × LoopState) (AgentResponse × LoopState) → LoopState
  | .ok (_, st) => st
  | .error (_, st) => st

theorem processLoop_subOk (oracle : Oracle) (user_id : String) (now : Nat) :
    ∀ (n : Nat) (response : Completion) (prevMsg : RespMsg) (st : LoopState),
      (∀ l ∈ st.submitted, protocolOk l = true) →
      protocolOk st.messages = true →
      ∀ l ∈ (loopStateOf (processLoop oracle user_id now n response prevMsg st)).submitted,
        protocolOk l = true
  | 0, _response, _prevMsg, _st => fun hsub _ => hsub
  | n + 1, response, prevMsg, st => fun hsub hmsg => by
    by_cases hempty : response.message.tool_calls.isEmpty = true
    · simp only [processLoop, if_pos hempty]
      exact hsub
    · rcases hr : execRound user_id now response.message.tool_calls st.db
        with ⟨msgs, entries, db2, err⟩
      have hne : response.message.tool_calls ≠ [] := by
        intro hnil
        exact hempty (by rw [hnil]; rfl)
      cases err with
      | some e =>
        simp only [processLoop, if_neg hempty, hr]
        exact hsub
      | none =>
        have hblock := execRound_blockOk user_id now response.message.tool_calls st.db
          (by rw [hr])
        rw [hr] at hblock
        have hmsgs' : protocolOk (st.messages ++
            ({ role := "assistant", content := contentOr response.message.content,
               tool_calls := response.message.tool_calls.map toolCallToEVal }
              : RMessage) :: msgs) = true :=
          protocolOk_append _ _ hmsg
            (protocolOk_block (contentOr response.message.content)
              response.message.tool_calls msgs hne hblock)
        have hsub' : ∀ l ∈ st.submitted ++ [st.messages ++
            ({ role := "assistant", content := contentOr response.message.content,
               tool_calls := response.message.tool_calls.map toolCallToEVal }
              : RMessage) :: msgs], protocolOk l = true := by
          intro l hl
          rcases List.mem_append.mp hl with hmem | hmem
          · exact hsub l hmem
          · rw [List.mem_singleton.mp hmem]
            exact hmsgs'
        cases horacle : oracle (st.messages ++
            ({ role := "assistant", content := contentOr response.message.content,
               tool_calls := response.message.tool_calls.map toolCallToEVal }
              : RMessage) :: msgs) with
        | error e =>
          simp only [processLoop, if_neg hempty, hr, horacle]
          exact hsub'
        | ok resp' =>
          simp only [processLoop, if_neg hempty, hr, horacle]
          exact processLoop_subOk oracle user_id now n resp' response.message _ hsub' hmsgs'

/-- C1: in every message list the orchestrator's tool-call loop hands to the
completion capability (the instrumented `submitted` lists, of which the
first is the initially built list and each later one is a resubmission),
provided the initially built list already satisfies the protocol, every
assistant message carrying N tool-invocation requests is immediately
followed by exactly N tool-role messages, one per invocation in request
order, each tagged with the invocation id of the matching request, before
any further assistant message appears; the loop appends each assistant turn
together with its full tool-answer block before resubmitting, and an
aborted round is never resubmitted. -/
theorem c1_protocol_invariant :
    ∀ (oracle : Oracle) (user_id user_message : String)
      (conversation_history : List HMessage) (user_name : Option String)
      (db : DB) (now : Nat),
      protocolOk (build_messages user_message conversation_history user_name) = true →
      ∀ l ∈ (run oracle user_id user_message conversation_history user_name db now).2.submitted,
        protocolOk l = true := by
  intro oracle user_id user_message conversation_history user_name db now h0
  have hsub0 : ∀ l ∈ [build_messages user_message conversation_history user_name],
      protocolOk l = true := by
    intro l hl
    rw [List.mem_singleton.mp hl]
    exact h0
  cases horacle : oracle (build_messages user_message conversation_history user_name) with
  | error e =>
    simp only [run, horacle]
    exact hsub0
  | ok response =>
    have hloop := processLoop_subOk oracle user_id now 10 response response.message
      { messages := build_messages user_message conversation_history user_name,
        log := [], intermediate := [], db := db, calls := 1,
        submitted := [build_messages user_message conversation_history user_name] }
      hsub0 h0
    cases hp : processLoop oracle user_id now 10 response response.message
      { messages := build_messages user_message conversation_history user_name,
        log := [], intermediate := [], db := db, calls := 1,
        submitted := [build_messages user_message conversation_history user_name] } with
    | error p =>
      rcases p with ⟨e, st⟩
      rw [hp] at hloop
      simp only [run, horacle, hp]
      exact hloop
    | ok p =>
      rcases p with ⟨r, st⟩
      rw [hp] at hloop
      simp only [run, horacle, hp]
      exact hloop

/-- A concrete completion capability: the first call (on the 2-message
initial list) requests one `list_tasks` invocation, any later call answers
with plain text. -/
def oracleW : Oracle := fun ms =>
  if ms.length = 2 then
    .ok
      { message :=
          { content := none,
            tool_calls := [⟨"call_1", "function",
              ⟨"list_tasks", "\x7b\"user_id\": \"x\"\x7d"⟩⟩] } }
  else
    .ok { message := { content := some "Done" } }

set_option maxRecDepth 10000 in
/-- C1 witness: a run whose first completion answer requests a tool call;
the last list resubmitted to the capability satisfies the protocol
invariant. -/
theorem c1_witness :
    protocolOk ((run oracleW uuidA "hi" [] none dbW 5).2.submitted.getLastD []) = true :=
  c1_protocol_invariant oracleW uuidA "hi" [] none dbW 5 (by decide) _ (by decide)

/-! ## The loop ceiling -/

theorem processLoop_calls (oracle : Oracle) (user_id : String) (now : Nat) :
    ∀ (n : Nat) (response : Completion) (prevMsg : RespMsg) (st : LoopState),
      (loopStateOf (processLoop oracle user_id now n response prevMsg st)).calls
        ≤ st.calls + n
  | 0, _response, _prevMsg, st => Nat.le_add_right st.calls 0
  | n + 1, response, prevMsg, st => by
    by_cases hempty : response.message.tool_calls.isEmpty = true
    · simp only [processLoop, if_pos hempty, loopStateOf]
      omega
    · rcases hr : execRound user_id now response.message.tool_calls st.db
        with ⟨msgs, entries, db2, err⟩
      cases err with
      | some e =>
        simp only [processLoop, if_neg hempty, hr, loopStateOf]
        omega
      | none =>
        cases horacle : oracle (st.messages ++
            ({ role := "assistant", content := contentOr response.message.content,
               tool_calls := response.message.tool_calls.map toolCallToEVal }
              : RMessage) :: msgs) with
        | error e =>
          simp only [processLoop, if_neg hempty, hr, horacle, loopStateOf]
          omega
        | ok resp' =>
          simp only [processLoop, if_neg hempty, hr, horacle]
          have := processLoop_calls oracle user_id now n resp' response.message
            { messages := st.messages ++
                ({ role := "assistant", content := contentOr response.message.content,
                   tool_calls := response.message.tool_calls.map toolCallToEVal }
                  : RMessage) :: msgs,
              log := st.log ++ entries,
              intermediate := st.intermediate ++
                ({ role := "assistant", content := contentOr response.message.content,
                   tool_calls := response.message.tool_calls.map toolCallToEVal }
                  : RMessage) :: msgs,
              db := db2, calls := st.calls + 1,
              submitted := st.submitted ++ [st.messages ++
                ({ role := "assistant", content := contentOr response.message.content,
                   tool_calls := response.message.tool_calls.map toolCallToEVal }
                  : RMessage) :: msgs] }
          have hrec : (loopStateOf (processLoop oracle user_id now n resp' response.message
              { messages := st.messages ++
                  ({ role := "assistant", content := contentOr response.message.content,
                     tool_calls := response.message.tool_calls.map toolCallToEVal }
                    : RMessage) :: msgs,
                log := st.log ++ entries,
                intermediate := st.intermediate ++
                  ({ role := "assistant", content := contentOr response.message.content,
                     tool_calls := response.message.tool_calls.map toolCallToEVal }
                    : RMessage) :: msgs,
                db := db2, calls := st.calls + 1,
                submitted := st.submitted ++ [st.messages ++
                  ({ role := "assistant", content := contentOr response.message.content,
                     tool_calls := response.message.tool_calls.map toolCallToEVal }
                    : RMessage) :: msgs] })).calls ≤ st.calls + 1 + n := this
          omega

/-- A completion capability that requests a tool call on every answer,
driving the loop into its ceiling. -/
def oracleLoop : Oracle := fun _ms =>
  .ok
    { message :=
        { content := none,
          tool_calls := [⟨"c1", "function", ⟨"list_tasks", "\x7b\x7d"⟩⟩] } }

set_option maxRecDepth 100000 in
/-- C7 counterexample: with a capability that asks for a tool call every
time, one user turn makes 11 completion requests (the initial one in `run`
plus the 10 the loop is allowed), so "at most 10 request/response rounds"
is false as stated. -/
theorem c7_counterexample :
    (run oracleLoop uuidA "hi" [] none dbW 5).2.calls = 11 ∧
    ¬ ((run oracleLoop uuidA "hi" [] none dbW 5).2.calls ≤ 10) := by
  constructor
  · decide
  · decide

/-- C7 (amended): the loop always terminates and the caller always gets a
structured response: (i) one user turn makes at most 11 completion requests
— the initial request in `run` plus at most the 10 the tool-call loop is
allowed; (ii) when the iteration ceiling is reached the loop stops and
surfaces the text of the last examined message as a normal response, not a
failure; (iii) a hard failure of the completion capability on the initial
request is caught and converted into an apologetic response with
`finish_reason = "error"`, never re-raised. -/
theorem c7_runner_bounded :
    (∀ (oracle : Oracle) (user_id user_message : String)
       (conversation_history : List HMessage) (user_name : Option String)
       (db : DB) (now : Nat),
       (run oracle user_id user_message conversation_history user_name db now).2.calls
         ≤ 11) ∧
    (∀ (oracle : Oracle) (user_id : String) (now : Nat) (response : Completion)
       (prevMsg : RespMsg) (st : LoopState),
       processLoop oracle user_id now 0 response prevMsg st
         = .ok (mkResponse prevMsg response st, st)) ∧
    (∀ (oracle : Oracle) (user_id user_message : String)
       (conversation_history : List HMessage) (user_name : Option String)
       (db : DB) (now : Nat) (e : String),
       oracle (build_messages user_message conversation_history user_name) = .error e →
       (run oracle user_id user_message conversation_history user_name db now).1
         = { message := "I encountered an error: " ++ e, finish_reason := "error" }) := by
  refine ⟨?_, fun _ _ _ _ _ _ => rfl, ?_⟩
  · intro oracle user_id user_message conversation_history user_name db now
    cases horacle : oracle (build_messages user_message conversation_history user_name) with
    | error e =>
      simp only [run, horacle]
      omega
    | ok response =>
      have hcalls := processLoop_calls oracle user_id now 10 response response.message
        { messages := build_messages user_message conversation_history user_name,
          log := [], intermediate := [], db := db, calls := 1,
          submitted := [build_messages user_message conversation_history user_name] }
      cases hp : processLoop oracle user_id now 10 response response.message
        { messages := build_messages user_message conversation_history user_name,
          log := [], intermediate := [], db := db, calls := 1,
          submitted := [build_messages user_message conversation_history user_name] } with
      | error p =>
        rcases p with ⟨e, st⟩
        rw [hp] at hcalls
        simp only [run, horacle, hp]
        simp only [loopStateOf] at hcalls
        omega
      | ok p =>
        rcases p with ⟨r, st⟩
        rw [hp] at hcalls
        simp only [run, horacle, hp]
        simp only [loopStateOf] at hcalls
        omega
  · intro oracle user_id user_message conversation_history user_name db now e h
    simp only [run, h]

/-- A completion capability that fails outright. -/
def oracleErr : Oracle := fun _ms => .error "boom"

/-- C7 witness: a failing capability on a concrete turn yields the
apologetic error response rather than an exception. -/
theorem c7_witness :
    (run oracleErr uuidB "hi" [] none dbW 5).1
      = { message := "I encountered an error: " ++ "boom",
          finish_reason := "error" } :=
  c7_runner_bounded.2.2 oracleErr uuidB "hi" [] none dbW 5 "boom" rfl
